import Mathlib

/-!
Verification of the RETRIVA lost-and-found application's deterministic core:
the local similarity heuristic, the AI-response coercion and comparison
orchestration in `services/geminiService.ts`, the model-cascade client
(`ModelManager` / `generateWithGauntlet`), and the chat merge and
read-reconciliation logic of the chat view.

JavaScript strings are modelled as Lean `String`; JS numbers that carry
fractional values are modelled as `ℚ` (none of the modelled code paths can
produce `NaN`/`Infinity` except where noted, and there `Option` is used);
`Math.round` is modelled as `⌊q + 1/2⌋`, which is its behaviour on rationals.
Remote-AI responses are abstracted as an explicit oracle argument, since the
modelled code only branches on the shape of the reply.
-/

namespace Retriva

/-! ## Generic JavaScript-semantics helpers -/

/-- JS `\w` character class: ASCII letters, digits, underscore. -/
def isWordChar (c : Char) : Bool := c.isAlphanum || c == '_'

/-- `String.prototype.toLowerCase`, character by character. -/
def jsLower (s : String) : String := String.mk (s.toList.map Char.toLower)

/-- Split a character list at every separator character; empty fields between
consecutive separators are kept, exactly as JS `split` on a one-char-class
regex behaves after the callers drop short tokens. -/
def splitChars (p : Char → Bool) : List Char → List (List Char)
  | [] => [[]]
  | c :: cs =>
    match splitChars p cs with
    | [] => if p c then [[], []] else [[c]]
    | t :: ts => if p c then [] :: t :: ts else (c :: t) :: ts

/-- `String.prototype.split` on a character class. -/
def jsSplit (s : String) (p : Char → Bool) : List String :=
  (splitChars p s.toList).map String.mk

/-- Whether `pat` occurs at the head of `l`. -/
def listStartsWith [DecidableEq α] : List α → List α → Bool
  | [], _ => true
  | _ :: _, [] => false
  | a :: pat, b :: l => if a = b then listStartsWith pat l else false

/-- Whether `pat` occurs contiguously anywhere in the list. -/
def listContainsSeq [DecidableEq α] (pat : List α) : List α → Bool
  | [] => listStartsWith pat []
  | b :: l => if listStartsWith pat (b :: l) then true else listContainsSeq pat l

/-- JS `s.includes(pat)`. -/
def strIncludes (s pat : String) : Bool := listContainsSeq pat.toList s.toList

/-- JS `Math.round` on a rational: round half toward positive infinity. -/
def jsRound (q : ℚ) : ℤ := ⌊q + 1/2⌋

/-- Insert `x` into `acc` after every element whose key is `≤ key x`
(so a later-arriving element lands after earlier ties). -/
def insertByKey (key : α → ℤ) (x : α) : List α → List α
  | [] => [x]
  | y :: ys => if key y ≤ key x then y :: insertByKey key x ys else x :: y :: ys

/-- Stable ascending sort by an integer key; models the stable
`Array.prototype.sort` with comparator `(a,b) => key a - key b`. -/
def sortByKeyAsc (key : α → ℤ) (l : List α) : List α :=
  l.foldl (fun acc x => insertByKey key x acc) []

/-- Stable descending sort by an integer key; models the stable
`Array.prototype.sort` with comparator `(a,b) => key b - key a`. -/
def sortByKeyDesc (key : α → ℤ) (l : List α) : List α :=
  sortByKeyAsc (fun a => -key a) l

/-! ## Item data model (`types.ts`) -/

/-- `ReportType` from `types.ts`. -/
inductive ReportType
  | LOST
  | FOUND
deriving DecidableEq

/-- Report status from `types.ts`. -/
inductive ItemStatus
  | OPEN
  | RESOLVED
deriving DecidableEq

/-- Modelled from the spec: `ItemCategory` is an enumerated set with a
distinguished `OTHER` member (the source file `types.ts` is not in the
repository snapshot; the modelled code only tests categories for equality and
compares against `OTHER`, so representative members suffice). -/
inductive ItemCategory
  | ELECTRONICS
  | ACCESSORIES
  | DOCUMENTS
  | OTHER
deriving DecidableEq

/-- Display name used in interpolated UI strings. -/
def ItemCategory.toName : ItemCategory → String
  | .ELECTRONICS => "Electronics"
  | .ACCESSORIES => "Accessories"
  | .DOCUMENTS => "Documents"
  | .OTHER => "Other"

/-- The fields of `ItemReport` consumed by the modelled code. -/
structure ItemReport where
  id : String
  type : ReportType
  status : ItemStatus
  category : ItemCategory
  title : String
  description : String
  tags : List String
  location : String
  date : String
  reporterId : String
deriving DecidableEq

/-! ## Similarity Heuristic (`calculateMatchScore`, Dashboard component) -/

/-- `clean` from `calculateMatchScore`: lowercase then
`replace(/[^\w\s]/g, '')`. -/
def jsClean (s : String) : String :=
  String.mk ((jsLower s).toList.filter (fun c => isWordChar c || c.isWhitespace))

/-- The keyword set of a report inside `calculateMatchScore`: clean
`title + ' ' + tags.join(' ')`, split on whitespace, drop tokens of length
`≤ 3`, deduplicate (JS `Set`). -/
def matchTokens (r : ItemReport) : List String :=
  ((jsSplit (jsClean (r.title ++ " " ++ String.intercalate " " r.tags))
      (fun c => c.isWhitespace)).filter (fun w => w.length > 3)).dedup

/-- `intersectionCount` of `calculateMatchScore`: how many distinct keywords of
`a` also occur among the keywords of `b`. -/
def tokenOverlapCount (a b : ItemReport) : ℕ :=
  ((matchTokens a).filter (fun w => (matchTokens b).contains w)).length

/-- The location bonus test of `calculateMatchScore`: one cleaned location
contains the other as a substring (either direction). -/
def locationMatches (a b : ItemReport) : Bool :=
  strIncludes (jsClean a.location) (jsClean b.location) ||
    strIncludes (jsClean b.location) (jsClean a.location)

/-- `calculateMatchScore` from the Dashboard component: the local 0-based
heuristic score between two reports. -/
def calculateMatchScore (item1 item2 : ItemReport) : ℕ :=
  if item1.id = item2.id ∨ item1.type = item2.type then 0
  else if item1.category ≠ item2.category then 0
  else
    let intersectionCount := tokenOverlapCount item1 item2
    let base := if intersectionCount > 0 then 40 + intersectionCount * 15 else 0
    let locBonus := if locationMatches item1 item2 then 20 else 0
    base + locBonus

/-! ## Text similarity and comparison orchestration (`services/geminiService.ts`) -/

/-- Token set of `calculateTextSimilarity`: lowercase, split on `/\W+/`, keep
tokens of length `> 2`, collect into a JS `Set`. -/
def simTokens (s : String) : Finset String :=
  ((jsSplit (jsLower s) (fun c => !isWordChar c)).filter (fun x => x.length > 2)).toFinset

/-- `calculateTextSimilarity`: Jaccard index of the two token sets, `0` when
either set is empty. -/
def calculateTextSimilarity (str1 str2 : String) : ℚ :=
  let set1 := simTokens str1
  let set2 := simTokens str2
  if set1 = ∅ ∨ set2 = ∅ then 0
  else ((set1 ∩ set2).card : ℚ) / ((set1 ∪ set2).card : ℚ)

/-- `ComparisonResult` of `geminiService.ts`. `confidence` is a JS number that
can be `NaN` on one code path, hence `Option ℤ` with `none` for `NaN` (every
non-`NaN` confidence the code produces is an integer, being the image of
`Math.round`). -/
structure ComparisonResult where
  confidence : Option ℤ
  explanation : String
  similarities : List String
  differences : List String
deriving DecidableEq

/-- `fallbackComparison`: the purely local comparison used when the AI boundary
fails. -/
def fallbackComparison (item1 item2 : ItemReport) : ComparisonResult :=
  let catMatch := item1.category = item2.category
  let score0 : ℚ := if catMatch then 25 else 0
  let sim0 : List String := if catMatch then ["Same Category"] else []
  let diff : List String :=
    if catMatch then []
    else ["Different Categories (" ++ item1.category.toName ++ " vs " ++ item2.category.toName ++ ")"]
  let titleSim := calculateTextSimilarity item1.title item2.title
  let score1 := if titleSim > 4/5 then score0 + 35 else if titleSim > 2/5 then score0 + 20 else score0
  let sim1 := sim0 ++
    (if titleSim > 4/5 then ["Identical Titles"]
     else if titleSim > 2/5 then ["Similar Titles"] else [])
  let descSim := calculateTextSimilarity item1.description item2.description
  let score2 := if descSim > 4/5 then score1 + 40
    else if descSim > 3/10 then score1 + (15 + descSim * 20) else score1
  let sim2 := sim1 ++
    (if descSim > 4/5 then ["Matching Description"]
     else if descSim > 3/10 then ["Shared Keywords"] else [])
  let score3 := if item1.date = item2.date then score2 + 5 else score2
  { confidence := some (min (jsRound score3) 99)
    explanation := "AI analysis unavailable. Score calculated based on keyword overlap and category matching."
    similarities := sim2
    differences := diff }

/-- The `confidence` field of the JSON object parsed from the model reply, as
the normalization code in `compareItems` discriminates it: a JSON number, a
string (carrying the result of `parseFloat(s.replace('%',''))`, `none` when
that parse yields `NaN`), or any other/absent value. -/
inductive ConfVal
  | num (q : ℚ)
  | str (parsed : Option ℚ)
  | other
deriving DecidableEq

/-- The first two normalization steps of `compareItems` on the parsed
confidence: strings go through `parseFloat` (already carried by `ConfVal.str`),
a number in `(0, 1]` is scaled by `100`, a non-number becomes `50`; `none`
models a `NaN` flowing through unchanged. -/
def normalizeConfSteps : ConfVal → Option ℚ
  | .num q => some (if q ≤ 1 ∧ 0 < q then q * 100 else q)
  | .str (some q) => some (if q ≤ 1 ∧ 0 < q then q * 100 else q)
  | .str none => none
  | .other => some 50

/-- The full confidence normalization of `compareItems` (without the
similarity-dependent boost): the steps above followed by
`Math.round(Math.min(conf, 100))`. -/
def normalizeConfidence (v : ConfVal) : Option ℤ :=
  (normalizeConfSteps v).map (fun q => jsRound (min q 100))

/-- Parsed JSON reply of the comparison prompt, after `JSON.parse ∘ cleanJSON`
succeeded. -/
structure ParsedComparison where
  confidence : ConfVal
  explanation : String
  similarities : List String
  differences : List String

/-- Outcome of the AI boundary inside `compareItems`' `try` block:
`callPuterAI` returned `null`, the reply failed `JSON.parse`, or it parsed. -/
inductive AIReply
  | noText
  | parseFail
  | parsed (r : ParsedComparison)

/-- The pinned result of `compareItems`' deterministic pre-check. -/
def pinnedComparison : ComparisonResult :=
  { confidence := some 99
    explanation := "Items have identical titles and descriptions. Highly likely to be the same match."
    similarities := ["Title matches perfectly", "Description matches perfectly", "Category matches"]
    differences := [] }

/-- `compareItems`, with the remote model abstracted as the `ai` oracle:
deterministic pre-check, then the AI path with confidence normalization and
deterministic boost, falling back to `fallbackComparison` on any AI failure. -/
def compareItems (item1 item2 : ItemReport) (ai : AIReply) : ComparisonResult :=
  let titleSim := calculateTextSimilarity item1.title item2.title
  let descSim := calculateTextSimilarity item1.description item2.description
  if titleSim > 9/10 ∧ descSim > 9/10 then pinnedComparison
  else
    match ai with
    | .noText => fallbackComparison item1 item2
    | .parseFail => fallbackComparison item1 item2
    | .parsed r =>
      let conf0 := normalizeConfSteps r.confidence
      let conf : Option ℚ :=
        match conf0 with
        | some q => some (if (titleSim > 4/5 ∨ descSim > 4/5) ∧ q < 60 then q + 30 else q)
        | none => none
      { confidence := conf.map (fun q => jsRound (min q 100))
        explanation := r.explanation
        similarities := r.similarities
        differences := r.differences }

/-! ## `findSmartMatches` (`services/geminiService.ts`) -/

/-- One entry of the `matches` array parsed from the model reply. -/
structure MatchCandidate where
  id : String
  confidence : ℚ
deriving DecidableEq

/-- Outcome of the AI boundary inside `findSmartMatches`: no text, unparseable
text, or a parsed `matches` list (`data.matches || []`). -/
inductive SmartAIReply
  | noText
  | parseFail
  | parsed (ms : List MatchCandidate)

/-- One element of `findSmartMatches`' result list. -/
structure SmartMatch where
  report : ItemReport
  confidence : ℤ
  isOffline : Bool
deriving DecidableEq

/-- The candidate pre-filter of `findSmartMatches`: status `OPEN`, opposite
type, not the source item itself. -/
def smartCandidatesBase (sourceItem : ItemReport) (allReports : List ItemReport) : List ItemReport :=
  let targetType := if sourceItem.type = ReportType.LOST then ReportType.FOUND else ReportType.LOST
  allReports.filter (fun r =>
    decide (r.status = ItemStatus.OPEN) && decide (r.type = targetType) && !decide (r.id = sourceItem.id))

/-- The candidate list after the optional category narrowing of
`findSmartMatches`: when the source has a specific category and narrowing to it
leaves at least one candidate, narrow. -/
def smartNarrowed (sourceItem : ItemReport) (allReports : List ItemReport) : List ItemReport :=
  let candidates := smartCandidatesBase sourceItem allReports
  if sourceItem.category ≠ ItemCategory.OTHER then
    let strictMatches := candidates.filter (fun c => decide (c.category = sourceItem.category))
    if strictMatches ≠ [] then strictMatches else candidates
  else candidates

/-- The candidate list after narrowing and the 10-element size cap of
`findSmartMatches`. -/
def smartCandidates (sourceItem : ItemReport) (allReports : List ItemReport) : List ItemReport :=
  let candidates := smartNarrowed sourceItem allReports
  if candidates.length > 10 then candidates.take 10 else candidates

/-- The local fallback scoring branch of `findSmartMatches`. -/
def smartFallbackResults (sourceItem : ItemReport) (candidates : List ItemReport) : List MatchCandidate :=
  (candidates.map (fun c =>
    let titleSim := calculateTextSimilarity sourceItem.title c.title
    let descSim := calculateTextSimilarity sourceItem.description c.description
    let score := titleSim * 50 + descSim * 50
    let score := if c.category = sourceItem.category then score + 10 else score
    MatchCandidate.mk c.id (min score 100))).filter (fun m => decide (m.confidence > 20))

/-- The `matchResults` list and `usedAI` flag of `findSmartMatches` after the
try/fallback block: a parsed reply sets `usedAI` and, when its `matches` list
is empty, still falls through to the local scoring (with `usedAI` left `true`,
exactly as in the source); a missing or unparseable reply scores locally with
`usedAI = false`. -/
def smartMatchResults (sourceItem : ItemReport) (candidates : List ItemReport)
    (ai : SmartAIReply) : List MatchCandidate × Bool :=
  match ai with
  | .parsed ms => if ms = [] then (smartFallbackResults sourceItem candidates, true) else (ms, true)
  | _ => (smartFallbackResults sourceItem candidates, false)

/-- The `results` array of `findSmartMatches` before the final sort: the used
match-result list mapped to reports in order, entries whose id finds no
candidate dropped (`.filter(Boolean)`), so it inherits the order of the
match-result list. -/
def smartResultsPre (sourceItem : ItemReport) (allReports : List ItemReport)
    (ai : SmartAIReply) : List SmartMatch :=
  let candidates := smartCandidates sourceItem allReports
  let mr := smartMatchResults sourceItem candidates ai
  mr.1.filterMap (fun m =>
    (candidates.find? (fun c => decide (c.id = m.id))).map
      (fun report => SmartMatch.mk report (jsRound m.confidence) (!mr.2)))

/-- `findSmartMatches`, with the remote model abstracted as the `ai` oracle. -/
def findSmartMatches (sourceItem : ItemReport) (allReports : List ItemReport)
    (ai : SmartAIReply) : List SmartMatch :=
  if smartCandidatesBase sourceItem allReports = [] then []
  else sortByKeyDesc (fun r => r.confidence) (smartResultsPre sourceItem allReports ai)

/-! ## Model Cascade Client (`ModelManager` / `generateWithGauntlet`) -/

/-- `MODEL_PIPELINE`: the fixed model ordering of the cascade client. -/
def MODEL_PIPELINE : List String :=
  ["gemini-1.5-flash", "gemini-1.5-flash-latest", "gemini-1.5-flash-001",
   "gemini-1.5-flash-002", "gemini-1.5-flash-8b", "gemini-2.0-flash-exp",
   "gemini-1.5-pro", "gemini-1.5-pro-latest"]

/-- Outcome of one `ai.models.generateContent` attempt: the returned text
(`response.text || ""` folded in), or a thrown error with its `status` (`0`
when absent) and message. -/
inductive Outcome
  | success (text : String)
  | failure (status : ℕ) (msg : String)
deriving DecidableEq

/-- The error classification of `generateWithGauntlet`'s `catch` block: `404`
or a lowercased message containing `"not found"`, and `429` or a message
containing `"quota"` or `"exhausted"`, ban the model for the session; anything
else does not. -/
def shouldBan (status : ℕ) (rawMsg : String) : Bool :=
  let msg := jsLower rawMsg
  (status == 404 || strIncludes msg "not found") ||
    (status == 429 || strIncludes msg "quota" || strIncludes msg "exhausted")

/-- `ModelManager.banModel`: add to the session ban set (set semantics). -/
def banInsert (bans : List String) (m : String) : List String :=
  if m ∈ bans then bans else m :: bans

/-- `ModelManager.getAvailableModels`: the pipeline minus the session bans. -/
def getAvailableModels (bans : List String) : List String :=
  MODEL_PIPELINE.filter (fun m => !decide (m ∈ bans))

/-- State after running the `for (const model of pipeline)` loop over a fixed
pipeline snapshot: final ban set, the attempted models in order, the first
success text if any, and the last caught error. -/
structure RunRes where
  bans : List String
  trace : List String
  success : Option String
  lastErr : Option (ℕ × String)
deriving DecidableEq

/-- The attempt loop of `generateWithGauntlet`: try each pipeline model in
order, classify failures into session bans, stop at the first success. -/
def runPipeline (attempt : String → Outcome) : List String → List String → RunRes
  | [], bans => ⟨bans, [], none, none⟩
  | m :: rest, bans =>
    match attempt m with
    | .success t => ⟨bans, [m], some t, none⟩
    | .failure status msg =>
      let bans1 := if shouldBan status msg then banInsert bans m else bans
      let r := runPipeline attempt rest bans1
      ⟨r.bans, m :: r.trace, r.success, some (r.lastErr.getD (status, msg))⟩

/-- The errors `generateWithGauntlet` can throw: missing API key,
`ALL_MODELS_FAILED` (empty pipeline even after the self-heal reset), or the
re-thrown `lastError` of the final pass (`none` models the
`new Error("All AI models failed to respond.")` default). -/
inductive GauntletError
  | missingApiKey
  | allModelsFailed
  | lastFailure (err : Option (ℕ × String))
deriving DecidableEq

deriving instance DecidableEq for Except

/-- Result of one `generateWithGauntlet` call: the session ban set afterwards,
every model attempted during the call in order, and the returned text or
thrown error. -/
structure GResult where
  bans : List String
  trace : List String
  result : Except GauntletError String

/-- `generateWithGauntlet` invoked with `retryCount = 1` (the self-heal
recursion): no entry reset of the bans, and the loop's failure is final. -/
def gauntletRetry (attempt : String → Outcome) (bans : List String) : GResult :=
  let pipeline := getAvailableModels bans
  if pipeline = [] then ⟨bans, [], .error .allModelsFailed⟩
  else
    let r := runPipeline attempt pipeline bans
    match r.success with
    | some t => ⟨r.bans, r.trace, .ok t⟩
    | none => ⟨r.bans, r.trace, .error (.lastFailure r.lastErr)⟩

/-- The main body of a `retryCount = 0` call after the entry self-heal check:
empty-pipeline guard, first pass, and on a fully failed pass the single
`retryCount = 1` recursion. -/
def gauntletRun (attempt : String → Outcome) (bans : List String) : GResult :=
  let pipeline := getAvailableModels bans
  if pipeline = [] then ⟨bans, [], .error .allModelsFailed⟩
  else
    let r := runPipeline attempt pipeline bans
    match r.success with
    | some t => ⟨r.bans, r.trace, .ok t⟩
    | none =>
      let r2 := gauntletRetry attempt r.bans
      ⟨r2.bans, r.trace ++ r2.trace, r2.result⟩

/-- `generateWithGauntlet` invoked with `retryCount = 0` (every external call):
if the ban set has emptied the pipeline, clear the bans once (so the body runs
on the full ordering); on a fully failed pass, recurse once as
`retryCount = 1`. -/
def gauntletCall (attempt : String → Outcome) (bans : List String) : GResult :=
  if getAvailableModels bans = [] then gauntletRun attempt [] else gauntletRun attempt bans

/-- `generateWithGauntlet` as exported: the missing-API-key guard in front of
the cascade. -/
def generateWithGauntlet (hasApiKey : Bool) (attempt : String → Outcome)
    (bans : List String) : GResult :=
  if hasApiKey then gauntletCall attempt bans else ⟨bans, [], .error .missingApiKey⟩

/-! ## Chat synchronization (ChatView component) -/

/-- Per-message read state; the source stores the strings `'sent'`/`'read'`. -/
inductive MessageStatus
  | sent
  | read
deriving DecidableEq

/-- The fields of `Message` consumed by the modelled code. `id` is optional:
legacy embedded messages may lack one, while subcollection snapshots always
carry the document id. -/
structure Message where
  id : Option String
  senderId : String
  text : Option String
  timestamp : ℤ
  status : MessageStatus
deriving DecidableEq

/-- The deduplication key `m.id || m.timestamp` of the merge: the id when it is
a non-empty string (JS truthiness), otherwise the timestamp. -/
def messageKey (m : Message) : String ⊕ ℤ :=
  match m.id with
  | some s => if s = "" then Sum.inr m.timestamp else Sum.inl s
  | none => Sum.inr m.timestamp

/-- `Map.set` on an insertion-ordered association list: replace in place when
the key exists, append otherwise — exactly the JS `Map` iteration contract. -/
def mapSet (l : List ((String ⊕ ℤ) × Message)) (k : String ⊕ ℤ) (v : Message) :
    List ((String ⊕ ℤ) × Message) :=
  if l.any (fun p => decide (p.1 = k)) then
    l.map (fun p => if p.1 = k then (k, v) else p)
  else l ++ [(k, v)]

/-- Folding one message into the merge map. -/
def mapSetMsg (acc : List ((String ⊕ ℤ) × Message)) (m : Message) :
    List ((String ⊕ ℤ) × Message) :=
  mapSet acc (messageKey m) m

/-- The message map of the `allMessages` memo: legacy entries first, then the
subcollection stream overwriting on key collision. -/
def buildMessageMap (legacy sub : List Message) : List ((String ⊕ ℤ) × Message) :=
  sub.foldl mapSetMsg (legacy.foldl mapSetMsg [])

/-- `allMessages`: merged map values sorted ascending by timestamp (stable JS
sort). -/
def allMessages (legacy sub : List Message) : List Message :=
  sortByKeyAsc (fun m => m.timestamp) ((buildMessageMap legacy sub).map Prod.snd)

/-- The chat-document fields consumed by the mark-as-read effect, plus the
legacy embedded message list. -/
structure ChatDoc where
  unreadCount : ℕ
  lastSenderId : String
  messages : List Message
deriving DecidableEq

/-- One update of the reconciliation batch. -/
inductive BatchOp
  | setRead (msgId : String)
  | resetUnread
deriving DecidableEq

/-- The batch assembled by the mark-as-read effect: a `status: 'read'` update
for every subcollection message from another sender that is not yet read and
has an id, plus an `unreadCount: 0` update when the unread counter is positive
and the viewer was not the last sender. -/
def reconcileBatch (userId : String) (chat : ChatDoc) (subMsgs : List Message) :
    List BatchOp :=
  let unreadDocs := subMsgs.filter (fun m =>
    !decide (m.senderId = userId) && !decide (m.status = MessageStatus.read))
  (unreadDocs.filterMap (fun m => m.id.map BatchOp.setRead)) ++
    (if chat.unreadCount > 0 ∧ chat.lastSenderId ≠ userId then [BatchOp.resetUnread] else [])

/-- Committing a batch against the store: `setRead` updates the subcollection
document with that id, `resetUnread` zeroes the chat's unread counter. The
legacy embedded list is not addressed by any batch operation. -/
def applyBatch (chat : ChatDoc) (subMsgs : List Message) (ops : List BatchOp) :
    ChatDoc × List Message :=
  ops.foldl (fun st op =>
    match op with
    | .resetUnread => ({ st.1 with unreadCount := 0 }, st.2)
    | .setRead mid =>
      (st.1, st.2.map (fun m => if m.id = some mid then { m with status := .read } else m)))
    (chat, subMsgs)

/-- The full mark-as-read effect: build the batch and commit it atomically. -/
def reconcile (userId : String) (chat : ChatDoc) (subMsgs : List Message) :
    ChatDoc × List Message :=
  applyBatch chat subMsgs (reconcileBatch userId chat subMsgs)

/-- The cumulative effect of a batch's operations on one subcollection
document (used to characterise `applyBatch`'s message component). -/
def applyOps (ops : List BatchOp) (m : Message) : Message :=
  ops.foldl (fun m op =>
    match op with
    | .setRead mid => if m.id = some mid then { m with status := .read } else m
    | .resetUnread => m) m

/-! ## Concrete sample data for witnesses and counterexamples -/

/-- A lost electronics report with five long title keywords. -/
def sampleLost : ItemReport :=
  ⟨"a", .LOST, .OPEN, .ELECTRONICS, "alpha bravo charlie delta echo", "", [], "", "", "U1"⟩

/-- A found electronics report sharing all five keywords with `sampleLost`. -/
def sampleFound : ItemReport :=
  ⟨"b", .FOUND, .OPEN, .ELECTRONICS, "alpha bravo charlie delta echo", "", [], "", "", "U2"⟩

/-- A found accessories report (category differs from `sampleLost`). -/
def sampleOtherCat : ItemReport :=
  ⟨"c", .FOUND, .OPEN, .ACCESSORIES, "alpha bravo", "", [], "", "", "U2"⟩

/-- A lost report whose title and description consist only of tokens of length
`≤ 2`. -/
def shortTokenLost : ItemReport :=
  ⟨"s1", .LOST, .OPEN, .OTHER, "ab", "cd", [], "", "", "U1"⟩

/-- A found report with the same short-token title and description. -/
def shortTokenFound : ItemReport :=
  ⟨"s2", .FOUND, .OPEN, .OTHER, "ab", "cd", [], "", "", "U2"⟩

/-- A lost report with long-token title and description. -/
def longTokenLost : ItemReport :=
  ⟨"x1", .LOST, .OPEN, .ELECTRONICS, "black iphone", "lost near library", [], "", "", "U1"⟩

/-- A found report with title and description identical to `longTokenLost`. -/
def longTokenFound : ItemReport :=
  ⟨"x2", .FOUND, .OPEN, .ELECTRONICS, "black iphone", "lost near library", [], "", "", "U2"⟩

/-- A lost source report by reporter `"U1"`. -/
def sampleSmartSource : ItemReport :=
  ⟨"src", .LOST, .OPEN, .ELECTRONICS, "alpha bravo", "", [], "", "", "U1"⟩

/-- A found, open, opposite-type report by the same reporter `"U1"`. -/
def sampleSmartCand : ItemReport :=
  ⟨"cand", .FOUND, .OPEN, .ELECTRONICS, "alpha bravo", "", [], "", "", "U1"⟩

/-- A second found, open, opposite-type report, used to exercise a confidence
tie. -/
def sampleSmartCand2 : ItemReport :=
  ⟨"cand2", .FOUND, .OPEN, .ELECTRONICS, "alpha bravo", "", [], "", "", "U3"⟩

/-- Legacy embedded message with id `"a"`, timestamp `1`. -/
def legacyMsgA : Message := ⟨some "a", "U1", some "hello", 1, .sent⟩

/-- Subcollection message with the same id `"a"` and timestamp `1`, updated
text. -/
def subMsgA : Message := ⟨some "a", "U1", some "updated", 1, .sent⟩

/-- Subcollection message with id `"b"`, timestamp `2`. -/
def subMsgB : Message := ⟨some "b", "U2", some "world", 2, .sent⟩

/-- A chat document as the read-reconciliation effect sees it: `unreadCount`
`5`, last sender `"U1"`, no legacy messages. -/
def chatW : ChatDoc := ⟨5, "U1", []⟩

/-- An unread subcollection message from `"U1"`. -/
def subMsgUnread : Message := ⟨some "m1", "U1", some "hi", 1, .sent⟩

/-- A chat document whose only message lives in the legacy embedded list,
unread, from `"U1"`. -/
def chatLegacy : ChatDoc := ⟨5, "U1", [⟨some "L1", "U1", some "hi", 1, .sent⟩]⟩

/-- A cascade attempt oracle: the first two pipeline models fail with 404, all
others answer. -/
def attemptW : String → Outcome := fun m =>
  if m = "gemini-1.5-flash" ∨ m = "gemini-1.5-flash-latest" then
    .failure 404 "model not found"
  else .success "model three answers"

/-! ## Helper lemmas -/

theorem calculateTextSimilarity_nonneg (s1 s2 : String) :
    0 ≤ calculateTextSimilarity s1 s2 := by
  simp only [calculateTextSimilarity]
  split_ifs with h
  · exact le_refl 0
  · positivity

theorem calculateTextSimilarity_le_one (s1 s2 : String) :
    calculateTextSimilarity s1 s2 ≤ 1 := by
  simp only [calculateTextSimilarity]
  split_ifs with h
  · exact zero_le_one
  · push_neg at h
    have hunion : 0 < ((simTokens s1 ∪ simTokens s2).card : ℚ) := by
      have h1 : (simTokens s1).Nonempty := Finset.nonempty_iff_ne_empty.mpr h.1
      have h2 : (simTokens s1 ∪ simTokens s2).Nonempty :=
        h1.mono Finset.subset_union_left
      exact_mod_cast Finset.card_pos.mpr h2
    rw [div_le_one hunion]
    exact_mod_cast Finset.card_le_card Finset.inter_subset_union

theorem calculateTextSimilarity_comm (s1 s2 : String) :
    calculateTextSimilarity s1 s2 = calculateTextSimilarity s2 s1 := by
  simp only [calculateTextSimilarity]
  rw [Finset.inter_comm, Finset.union_comm]
  exact if_congr Or.comm rfl rfl

theorem calculateTextSimilarity_of_empty (s1 s2 : String)
    (h : simTokens s1 = ∅ ∨ simTokens s2 = ∅) :
    calculateTextSimilarity s1 s2 = 0 := by
  simp only [calculateTextSimilarity]
  exact if_pos h

theorem calculateTextSimilarity_self (s : String) (h : simTokens s ≠ ∅) :
    calculateTextSimilarity s s = 1 := by
  simp only [calculateTextSimilarity]
  rw [if_neg (by simp [h]), Finset.inter_self, Finset.union_self]
  have hc : ((simTokens s).card : ℚ) ≠ 0 := by
    exact_mod_cast Finset.card_ne_zero.mpr (Finset.nonempty_iff_ne_empty.mpr h)
  exact div_self hc

theorem compareItems_fallback_of_failure (i1 i2 : ItemReport) (ai : AIReply)
    (hai : ai = AIReply.noText ∨ ai = AIReply.parseFail)
    (h : ¬(calculateTextSimilarity i1.title i2.title > 9/10 ∧
        calculateTextSimilarity i1.description i2.description > 9/10)) :
    compareItems i1 i2 ai = fallbackComparison i1 i2 := by
  simp only [compareItems]
  rw [if_neg h]
  rcases hai with rfl | rfl <;> rfl

theorem compareItems_noText_of_short_title (i1 i2 : ItemReport)
    (h : simTokens i1.title = ∅ ∨ simTokens i2.title = ∅) :
    compareItems i1 i2 .noText = fallbackComparison i1 i2 := by
  refine compareItems_fallback_of_failure i1 i2 _ (Or.inl rfl) ?_
  rw [calculateTextSimilarity_of_empty _ _ h]
  norm_num

/-! ## Claim theorems -/

/-- C5: for every pair of `ItemReport`s with different `category`, and for
every pair with identical `type`, the heuristic score `calculateMatchScore`
equals `0`. -/
theorem c5_match_score_gates (a b : ItemReport) :
    (a.category ≠ b.category → calculateMatchScore a b = 0) ∧
    (a.type = b.type → calculateMatchScore a b = 0) := by
  constructor
  · intro h
    simp only [calculateMatchScore]
    by_cases h1 : a.id = b.id ∨ a.type = b.type
    · rw [if_pos h1]
    · rw [if_neg h1, if_pos h]
  · intro h
    simp only [calculateMatchScore]
    rw [if_pos (Or.inr h)]

/-- Witness for C5: a category mismatch and a type match, each at a concrete
pair, both scoring `0`. -/
theorem c5_match_score_gates_witness :
    calculateMatchScore sampleLost sampleOtherCat = 0 ∧
    calculateMatchScore sampleFound sampleOtherCat = 0 :=
  ⟨(c5_match_score_gates sampleLost sampleOtherCat).1 (by decide),
   (c5_match_score_gates sampleFound sampleOtherCat).2 (by decide)⟩

/-- Counterexample for C6: with five shared long keywords and the (vacuously
matching) empty locations, the heuristic scores
`40 + 15 × 5 + 20 = 135 > 100`, so the score is not confined to `0..100`. -/
theorem c6_match_score_range_counterexample :
    calculateMatchScore sampleLost sampleFound = 135 ∧
    ¬ calculateMatchScore sampleLost sampleFound ≤ 100 := by decide

/-- C6 (amended): the heuristic score is a natural number with no upper clamp;
when the id, type and category gates pass it equals
`40 + 15 × |token intersection|` (when the intersection is non-empty) plus `20`
when one cleaned location contains the other, and it is `0` whenever a gate
fails. -/
theorem c6_match_score_formula (a b : ItemReport) :
    (a.id = b.id ∨ a.type = b.type ∨ a.category ≠ b.category →
      calculateMatchScore a b = 0) ∧
    (a.id ≠ b.id → a.type ≠ b.type → a.category = b.category →
      calculateMatchScore a b =
        (if tokenOverlapCount a b > 0 then 40 + tokenOverlapCount a b * 15 else 0) +
        (if locationMatches a b then 20 else 0)) := by
  constructor
  · intro h
    simp only [calculateMatchScore]
    rcases h with h | h | h
    · rw [if_pos (Or.inl h)]
    · rw [if_pos (Or.inr h)]
    · by_cases h1 : a.id = b.id ∨ a.type = b.type
      · rw [if_pos h1]
      · rw [if_neg h1, if_pos h]
  · intro hid hty hcat
    simp only [calculateMatchScore]
    rw [if_neg (not_or.mpr ⟨hid, hty⟩), if_neg (by simp [hcat])]

/-- Witness for C6 (amended): the formula evaluated at the concrete
counterexample pair. -/
theorem c6_match_score_formula_witness :
    calculateMatchScore sampleLost sampleFound =
      (if tokenOverlapCount sampleLost sampleFound > 0 then
        40 + tokenOverlapCount sampleLost sampleFound * 15 else 0) +
      (if locationMatches sampleLost sampleFound then 20 else 0) :=
  (c6_match_score_formula sampleLost sampleFound).2 (by decide) (by decide) (by decide)

/-- C10: `calculateTextSimilarity` is bounded in `[0,1]` and symmetric; it is
`0` whenever either input has no token longer than two characters (in
particular on two identical short-token strings), and such pairs do not
trigger the deterministic pre-check of `compareItems` — with a failing AI
boundary the result is the local fallback, not the pinned result. -/
theorem c10_text_similarity_contract :
    (∀ s1 s2 : String,
      0 ≤ calculateTextSimilarity s1 s2 ∧ calculateTextSimilarity s1 s2 ≤ 1 ∧
      calculateTextSimilarity s1 s2 = calculateTextSimilarity s2 s1 ∧
      (simTokens s1 = ∅ ∨ simTokens s2 = ∅ → calculateTextSimilarity s1 s2 = 0)) ∧
    (∀ s : String, simTokens s = ∅ → calculateTextSimilarity s s = 0) ∧
    (∀ i1 i2 : ItemReport, simTokens i1.title = ∅ →
      compareItems i1 i2 .noText = fallbackComparison i1 i2) := by
  refine ⟨fun s1 s2 => ⟨calculateTextSimilarity_nonneg s1 s2,
    calculateTextSimilarity_le_one s1 s2, calculateTextSimilarity_comm s1 s2,
    calculateTextSimilarity_of_empty s1 s2⟩, ?_, ?_⟩
  · intro s h
    exact calculateTextSimilarity_of_empty s s (Or.inl h)
  · intro i1 i2 h
    exact compareItems_noText_of_short_title i1 i2 (Or.inl h)

/-- Witness for C10: the short-token clauses at concrete inputs — identical
strings `"ab"` have similarity `0`, and a pair of reports with that title falls
back rather than being pinned. -/
theorem c10_text_similarity_contract_witness :
    calculateTextSimilarity "ab" "ab" = 0 ∧
    compareItems ⟨"a", .LOST, .OPEN, .OTHER, "ab", "cd", [], "", "", "U1"⟩
        ⟨"b", .FOUND, .OPEN, .OTHER, "ab", "cd", [], "", "", "U2"⟩ .noText =
      fallbackComparison ⟨"a", .LOST, .OPEN, .OTHER, "ab", "cd", [], "", "", "U1"⟩
        ⟨"b", .FOUND, .OPEN, .OTHER, "ab", "cd", [], "", "", "U2"⟩ :=
  ⟨c10_text_similarity_contract.2.1 "ab" (by decide),
   c10_text_similarity_contract.2.2 _ _ (by decide)⟩

theorem jsRound_intCast (n : ℤ) : jsRound (n : ℚ) = n := by
  unfold jsRound
  rw [Int.floor_eq_iff]
  constructor
  · linarith
  · linarith

theorem jsRound_le_of_le (q : ℚ) (n : ℤ) (h : q ≤ n) : jsRound q ≤ n := by
  unfold jsRound
  by_contra hc
  push_neg at hc
  have h1 : n + 1 ≤ ⌊q + 1/2⌋ := Int.lt_iff_add_one_le.mp hc
  have h2 : ((n + 1 : ℤ) : ℚ) ≤ q + 1/2 := Int.le_floor.mp h1
  push_cast at h2
  linarith

theorem jsRound_nonneg (q : ℚ) (h : 0 ≤ q) : 0 ≤ jsRound q := by
  unfold jsRound
  exact Int.le_floor.mpr (by push_cast; linarith)

theorem normalizeConfSteps_num_of_not_frac (q : ℚ) (h : ¬(q ≤ 1 ∧ 0 < q)) :
    normalizeConfSteps (.num q) = some q := by
  simp only [normalizeConfSteps]
  rw [if_neg h]

/-- C4 (amended): whenever the two items' `title` strings are identical and
contain at least one token longer than two characters, and likewise their
`description` strings, `compareItems` returns the pinned 99-confidence result
for every possible remote-model reply. (The claim as frozen drops the
token-length proviso; see the counterexample.) -/
theorem c4_identical_items_pinned (i1 i2 : ItemReport) (ai : AIReply)
    (ht : i1.title = i2.title) (hd : i1.description = i2.description)
    (htn : simTokens i1.title ≠ ∅) (hdn : simTokens i1.description ≠ ∅) :
    compareItems i1 i2 ai = pinnedComparison := by
  simp only [compareItems]
  rw [← ht, ← hd, calculateTextSimilarity_self _ htn, calculateTextSimilarity_self _ hdn]
  rw [if_pos (by norm_num)]

/-- Witness for C4 (amended): the identical long-token pair is pinned at 99
even when the model replied with confidence 10. -/
theorem c4_identical_items_pinned_witness :
    compareItems longTokenLost longTokenFound
      (.parsed ⟨.num 10, "model reply", [], []⟩) = pinnedComparison :=
  c4_identical_items_pinned longTokenLost longTokenFound _
    (by decide) (by decide) (by decide) (by decide)

/-- Counterexample for C4: the reports `shortTokenLost` / `shortTokenFound`
have identical titles (`"ab"`) and identical descriptions (`"cd"`), yet with a
model reply carrying confidence 10 the returned confidence is 10, not 99 — the
pre-check's Jaccard similarity is 0 on short-token-only strings. -/
theorem c4_identical_items_counterexample :
    shortTokenLost.title = shortTokenFound.title ∧
    shortTokenLost.description = shortTokenFound.description ∧
    (compareItems shortTokenLost shortTokenFound
      (.parsed ⟨.num 10, "model reply", [], []⟩)).confidence = some 10 := by
  refine ⟨rfl, rfl, ?_⟩
  have ht : calculateTextSimilarity shortTokenLost.title shortTokenFound.title = 0 := by
    decide
  have hd : calculateTextSimilarity shortTokenLost.description shortTokenFound.description = 0 := by
    decide
  simp only [compareItems]
  rw [ht, hd, if_neg (by norm_num)]
  simp only [normalizeConfSteps]
  rw [if_neg (by norm_num), if_neg (by norm_num)]
  simp only [Option.map_some']
  rw [min_eq_left (by norm_num)]
  have : jsRound ((10 : ℚ)) = 10 := by
    have h10 : ((10 : ℤ) : ℚ) = (10 : ℚ) := by norm_num
    rw [← h10, jsRound_intCast]
  rw [this]

/-- C7 (amended): `normalizeConfidence` always yields an integer `≤ 100` when
defined; re-normalizing its output is the identity except when the output is
exactly `1` (which the fraction rule blows up to `100`, so idempotence fails
there); nonnegative numeric inputs land in `[0,100]` (negative numbers pass
through un-clamped, so the lower bound of the frozen claim fails); a
non-numeric non-string value defaults to `50`; a percentage string behaves as
the parsed number, and an unparseable string yields `NaN`, not `50`. -/
theorem c7_normalize_confidence :
    (∀ v k, normalizeConfidence v = some k → k ≤ 100) ∧
    (∀ v k, normalizeConfidence v = some k → k ≠ 1 →
      normalizeConfidence (.num (k : ℚ)) = some k) ∧
    (∀ q : ℚ, 0 ≤ q → ∃ k, normalizeConfidence (.num q) = some k ∧ 0 ≤ k ∧ k ≤ 100) ∧
    normalizeConfidence .other = some 50 ∧
    (∀ q : ℚ, normalizeConfidence (.str (some q)) = normalizeConfidence (.num q)) ∧
    normalizeConfidence (.str none) = none := by
  have hbound : ∀ v k, normalizeConfidence v = some k → k ≤ 100 := by
    intro v k h
    obtain ⟨q, _, hk⟩ := Option.map_eq_some'.mp h
    exact hk ▸ jsRound_le_of_le _ _ (min_le_right q 100)
  refine ⟨hbound, ?_, ?_, ?_, fun q => rfl, rfl⟩
  · intro v k h hk1
    have hk100 : k ≤ 100 := hbound v k h
    have hcond : ¬((k : ℚ) ≤ 1 ∧ 0 < (k : ℚ)) := by
      rintro ⟨hle, hpos⟩
      have h1 : k ≤ 1 := by exact_mod_cast hle
      have h2 : 0 < k := by exact_mod_cast hpos
      omega
    unfold normalizeConfidence
    rw [normalizeConfSteps_num_of_not_frac _ hcond]
    simp only [Option.map_some']
    rw [min_eq_left (by exact_mod_cast hk100), jsRound_intCast]
  · intro q hq
    refine ⟨jsRound (min (if q ≤ 1 ∧ 0 < q then q * 100 else q) 100), rfl, ?_, ?_⟩
    · apply jsRound_nonneg
      rcases le_or_lt (if q ≤ 1 ∧ 0 < q then q * 100 else q) 100 with h | h
      · rw [min_eq_left h]
        split_ifs with hf
        · positivity
        · exact hq
      · rw [min_eq_right h.le]
        norm_num
    · exact jsRound_le_of_le _ _ (by exact_mod_cast min_le_right _ 100)
  · unfold normalizeConfidence
    simp only [normalizeConfSteps, Option.map_some']
    rw [min_eq_left (by norm_num)]
    have h50 : ((50 : ℤ) : ℚ) = (50 : ℚ) := by norm_num
    rw [← h50, jsRound_intCast]

/-- Witness for C7 (amended): the range clause at input `0` and the default
clause. -/
theorem c7_normalize_confidence_witness :
    (∃ k, normalizeConfidence (.num 0) = some k ∧ 0 ≤ k ∧ k ≤ 100) ∧
    normalizeConfidence .other = some 50 :=
  ⟨c7_normalize_confidence.2.2.1 0 (le_refl 0),
   c7_normalize_confidence.2.2.2.1⟩

/-- Counterexample for C7: `normalizeConfidence` is not idempotent —
`0.01` normalizes to `1`, but `1` re-normalizes to `100` — and its result is
not confined to `[0,100]`: `-5` passes through as `-5`. -/
theorem c7_normalize_confidence_counterexample :
    normalizeConfidence (.num (1/100)) = some 1 ∧
    normalizeConfidence (.num 1) = some 100 ∧
    (1 : ℤ) ≠ 100 ∧
    normalizeConfidence (.num (-5)) = some (-5) ∧
    ¬(0 : ℤ) ≤ -5 := by
  refine ⟨?_, ?_, by decide, ?_, by decide⟩
  · unfold normalizeConfidence
    simp only [normalizeConfSteps]
    rw [if_pos (by norm_num)]
    simp only [Option.map_some']
    rw [show (1/100 : ℚ) * 100 = ((1 : ℤ) : ℚ) by norm_num,
      min_eq_left (by norm_num), jsRound_intCast]
  · unfold normalizeConfidence
    simp only [normalizeConfSteps]
    rw [if_pos (by norm_num)]
    simp only [Option.map_some']
    rw [show (1 : ℚ) * 100 = ((100 : ℤ) : ℚ) by norm_num,
      min_eq_left (by norm_num), jsRound_intCast]
  · unfold normalizeConfidence
    simp only [normalizeConfSteps]
    rw [if_neg (by norm_num)]
    simp only [Option.map_some']
    rw [show ((-5 : ℚ)) = ((-5 : ℤ) : ℚ) by norm_num,
      min_eq_left (by norm_num), jsRound_intCast]

/-- C9 (amended): when the AI boundary fails (`callPuterAI` returned no text,
or the reply was unparseable), `compareItems` returns the local
`fallbackComparison` result whenever the deterministic pre-check does not fire,
and the pinned pre-check result when it does; in both cases a usable
`ComparisonResult` is returned (the function is total — no error propagates),
and the fallback's explanation flags it as an estimate. -/
theorem c9_orchestration_never_throws :
    (∀ (i1 i2 : ItemReport) (ai : AIReply),
      (ai = AIReply.noText ∨ ai = AIReply.parseFail) →
      ¬(calculateTextSimilarity i1.title i2.title > 9/10 ∧
          calculateTextSimilarity i1.description i2.description > 9/10) →
      compareItems i1 i2 ai = fallbackComparison i1 i2) ∧
    (∀ (i1 i2 : ItemReport) (ai : AIReply),
      (calculateTextSimilarity i1.title i2.title > 9/10 ∧
          calculateTextSimilarity i1.description i2.description > 9/10) →
      compareItems i1 i2 ai = pinnedComparison) ∧
    (∀ i1 i2 : ItemReport, (fallbackComparison i1 i2).explanation =
      "AI analysis unavailable. Score calculated based on keyword overlap and category matching.") := by
  refine ⟨compareItems_fallback_of_failure, ?_, fun i1 i2 => rfl⟩
  intro i1 i2 ai h
  simp only [compareItems]
  rw [if_pos h]

/-- Witness for C9 (amended): a short-token pair with a failed AI boundary
returns the fallback result. -/
theorem c9_orchestration_never_throws_witness :
    compareItems shortTokenLost shortTokenFound .noText =
      fallbackComparison shortTokenLost shortTokenFound :=
  c9_orchestration_never_throws.1 shortTokenLost shortTokenFound .noText (Or.inl rfl)
    (by rw [show calculateTextSimilarity shortTokenLost.title shortTokenFound.title = 0
          from by decide]
        norm_num)

/-- Counterexample for C9: on a pair with identical long-token titles and
descriptions and a failed AI boundary, `compareItems` returns the pinned
pre-check result, whose explanation differs from the fallback's — so the
frozen claim's "computed by the local fallback for every pair" fails. -/
theorem c9_orchestration_counterexample :
    compareItems longTokenLost longTokenFound .noText = pinnedComparison ∧
    (compareItems longTokenLost longTokenFound .noText).explanation ≠
      (fallbackComparison longTokenLost longTokenFound).explanation := by
  have ht : calculateTextSimilarity longTokenLost.title longTokenFound.title = 1 :=
    (calculateTextSimilarity_self "black iphone" (by decide) :
      calculateTextSimilarity "black iphone" "black iphone" = 1)
  have hd : calculateTextSimilarity longTokenLost.description longTokenFound.description = 1 :=
    (calculateTextSimilarity_self "lost near library" (by decide) :
      calculateTextSimilarity "lost near library" "lost near library" = 1)
  have hpin : compareItems longTokenLost longTokenFound .noText = pinnedComparison := by
    simp only [compareItems]
    rw [ht, hd, if_pos (by norm_num)]
  refine ⟨hpin, ?_⟩
  rw [hpin]
  decide

theorem insertByKey_perm (key : α → ℤ) (x : α) (l : List α) :
    (insertByKey key x l).Perm (x :: l) := by
  induction l with
  | nil => exact List.Perm.refl _
  | cons y ys ih =>
    simp only [insertByKey]
    split_ifs with h
    · exact (List.Perm.cons y ih).trans (List.Perm.swap x y ys)
    · exact List.Perm.refl _

theorem sortByKeyAsc_perm (key : α → ℤ) (l : List α) : (sortByKeyAsc key l).Perm l := by
  have haux : ∀ (l acc : List α),
      (l.foldl (fun acc x => insertByKey key x acc) acc).Perm (l ++ acc) := by
    intro l
    induction l with
    | nil => intro acc; simp
    | cons x xs ih =>
      intro acc
      simp only [List.foldl_cons]
      refine (ih (insertByKey key x acc)).trans ?_
      refine (List.Perm.append_left xs (insertByKey_perm key x acc)).trans ?_
      exact List.perm_middle
  simpa using haux l []

theorem insertByKey_pairwise (key : α → ℤ) (x : α) (l : List α)
    (h : l.Pairwise (fun a b => key a ≤ key b)) :
    (insertByKey key x l).Pairwise (fun a b => key a ≤ key b) := by
  induction l with
  | nil => simp [insertByKey]
  | cons y ys ih =>
    rw [List.pairwise_cons] at h
    simp only [insertByKey]
    split_ifs with hxy
    · rw [List.pairwise_cons]
      refine ⟨?_, ih h.2⟩
      intro z hz
      have hz' : z ∈ x :: ys := (insertByKey_perm key x ys).mem_iff.mp hz
      rcases List.mem_cons.mp hz' with rfl | hz''
      · exact hxy
      · exact h.1 z hz''
    · push_neg at hxy
      rw [List.pairwise_cons]
      refine ⟨?_, List.pairwise_cons.mpr h⟩
      intro z hz
      rcases List.mem_cons.mp hz with rfl | hz'
      · exact hxy.le
      · exact hxy.le.trans (h.1 z hz')

theorem sortByKeyAsc_pairwise (key : α → ℤ) (l : List α) :
    (sortByKeyAsc key l).Pairwise (fun a b => key a ≤ key b) := by
  have haux : ∀ (l acc : List α), acc.Pairwise (fun a b => key a ≤ key b) →
      (l.foldl (fun acc x => insertByKey key x acc) acc).Pairwise
        (fun a b => key a ≤ key b) := by
    intro l
    induction l with
    | nil => intro acc h; simpa using h
    | cons x xs ih =>
      intro acc h
      exact ih _ (insertByKey_pairwise key x acc h)
  exact haux l [] List.Pairwise.nil

theorem sortByKeyDesc_perm (key : α → ℤ) (l : List α) : (sortByKeyDesc key l).Perm l :=
  sortByKeyAsc_perm _ l

theorem sortByKeyDesc_pairwise (key : α → ℤ) (l : List α) :
    (sortByKeyDesc key l).Pairwise (fun a b => key b ≤ key a) := by
  have h := sortByKeyAsc_pairwise (fun a => -key a) l
  exact h.imp (fun hab => by omega)

theorem sublist_insertByKey (key : α → ℤ) (x : α) :
    ∀ l : List α, l.Sublist (insertByKey key x l) := by
  intro l
  induction l with
  | nil => simp [insertByKey]
  | cons y ys ih =>
    simp only [insertByKey]
    split_ifs with h
    · exact List.Sublist.cons₂ y ih
    · exact List.Sublist.cons x (List.Sublist.refl _)

theorem pair_sublist_insertByKey (key : α → ℤ) (x : α) :
    ∀ (l : List α) (a : α), l.Pairwise (fun u v => key u ≤ key v) → a ∈ l →
      key a ≤ key x → [a, x].Sublist (insertByKey key x l) := by
  intro l
  induction l with
  | nil => intro a _ ha _; exact absurd ha (List.not_mem_nil a)
  | cons y ys ih =>
    intro a hs ha hk
    simp only [insertByKey]
    split_ifs with hyx
    · rcases List.mem_cons.mp ha with rfl | ha'
      · refine List.Sublist.cons₂ a ?_
        exact List.singleton_sublist.mpr
          ((insertByKey_perm key x ys).mem_iff.mpr (List.mem_cons_self x ys))
      · exact List.Sublist.cons y (ih a (List.pairwise_cons.mp hs).2 ha' hk)
    · rcases List.mem_cons.mp ha with rfl | ha'
      · exact absurd hk hyx
      · exact absurd (((List.pairwise_cons.mp hs).1 a ha').trans hk) hyx

theorem foldl_insertByKey_stable (key : α → ℤ) :
    ∀ (l acc : List α), acc.Pairwise (fun u v => key u ≤ key v) →
      ∀ a b : α, key a ≤ key b →
      ([a, b].Sublist acc ∨ (a ∈ acc ∧ b ∈ l) ∨ [a, b].Sublist l) →
      [a, b].Sublist (l.foldl (fun acc x => insertByKey key x acc) acc) := by
  intro l
  induction l with
  | nil =>
    intro acc hs a b hk h
    rcases h with h | ⟨_, hb⟩ | h
    · exact h
    · exact absurd hb (List.not_mem_nil b)
    · exact absurd (List.sublist_nil.mp h) (by simp)
  | cons x xs ih =>
    intro acc hs a b hk h
    simp only [List.foldl_cons]
    refine ih (insertByKey key x acc) (insertByKey_pairwise key x acc hs) a b hk ?_
    rcases h with h | ⟨ha, hb⟩ | h
    · exact Or.inl (h.trans (sublist_insertByKey key x acc))
    · rcases List.mem_cons.mp hb with rfl | hb'
      · exact Or.inl (pair_sublist_insertByKey key b acc a hs ha hk)
      · refine Or.inr (Or.inl ⟨?_, hb'⟩)
        exact (insertByKey_perm key x acc).mem_iff.mpr (List.mem_cons_of_mem x ha)
    · rcases List.sublist_cons_iff.mp h with h2 | ⟨r, hr, h2⟩
      · exact Or.inr (Or.inr h2)
      · injection hr with h3 h4
        subst h3
        subst h4
        refine Or.inr (Or.inl ⟨?_, List.singleton_sublist.mp h2⟩)
        exact (insertByKey_perm key _ acc).mem_iff.mpr (List.mem_cons_self _ acc)

theorem sortByKeyAsc_stable (key : α → ℤ) (l : List α) (a b : α) (hk : key a ≤ key b)
    (h : [a, b].Sublist l) : [a, b].Sublist (sortByKeyAsc key l) :=
  foldl_insertByKey_stable key l [] List.Pairwise.nil a b hk (Or.inr (Or.inr h))

theorem sortByKeyDesc_stable (key : α → ℤ) (l : List α) (a b : α) (hk : key b ≤ key a)
    (h : [a, b].Sublist l) : [a, b].Sublist (sortByKeyDesc key l) :=
  sortByKeyAsc_stable (fun r => -key r) l a b (neg_le_neg hk) h

theorem smartCandidates_nil (sourceItem : ItemReport) (allReports : List ItemReport)
    (h : smartCandidatesBase sourceItem allReports = []) :
    smartCandidates sourceItem allReports = [] := by
  have hn : smartNarrowed sourceItem allReports = [] := by
    simp only [smartNarrowed, h]
    split_ifs with h1 h2
    · simp at h2
    · rfl
    · rfl
  simp [smartCandidates, hn]

theorem smartResultsPre_nil (sourceItem : ItemReport) (allReports : List ItemReport)
    (ai : SmartAIReply) (h : smartCandidatesBase sourceItem allReports = []) :
    smartResultsPre sourceItem allReports ai = [] := by
  have hc := smartCandidates_nil sourceItem allReports h
  simp only [smartResultsPre, hc]
  refine List.filterMap_eq_nil_iff.mpr ?_
  intro m _
  rfl

theorem mem_smartCandidatesBase (sourceItem r : ItemReport) (allReports : List ItemReport) :
    r ∈ smartCandidatesBase sourceItem allReports ↔
      r ∈ allReports ∧ r.status = ItemStatus.OPEN ∧
      r.type = (if sourceItem.type = ReportType.LOST then ReportType.FOUND else ReportType.LOST) ∧
      r.id ≠ sourceItem.id := by
  simp only [smartCandidatesBase, List.mem_filter, Bool.and_eq_true, decide_eq_true_eq,
    Bool.not_eq_true', decide_eq_false_iff_not]
  tauto

theorem smartNarrowed_subset (sourceItem : ItemReport) (allReports : List ItemReport) :
    ∀ r ∈ smartNarrowed sourceItem allReports, r ∈ smartCandidatesBase sourceItem allReports := by
  intro r hr
  simp only [smartNarrowed] at hr
  split_ifs at hr with h1 h2
  · exact List.mem_of_mem_filter hr
  · exact hr
  · exact hr

theorem smartCandidates_subset (sourceItem : ItemReport) (allReports : List ItemReport) :
    ∀ r ∈ smartCandidates sourceItem allReports, r ∈ smartCandidatesBase sourceItem allReports := by
  intro r hr
  simp only [smartCandidates] at hr
  split_ifs at hr with h1
  · exact smartNarrowed_subset sourceItem allReports r (List.mem_of_mem_take hr)
  · exact smartNarrowed_subset sourceItem allReports r hr

theorem smartResultsPre_sameReporter_eval :
    smartResultsPre sampleSmartSource [sampleSmartCand] (.parsed [⟨"cand", 60⟩]) =
      [⟨sampleSmartCand, 60, false⟩] := by
  have hj : jsRound (60 : ℚ) = 60 := by
    rw [show (60 : ℚ) = ((60 : ℤ) : ℚ) by norm_num, jsRound_intCast]
  have hmr : smartMatchResults sampleSmartSource
      (smartCandidates sampleSmartSource [sampleSmartCand]) (.parsed [⟨"cand", 60⟩]) =
      ([⟨"cand", 60⟩], true) := by
    simp only [smartMatchResults]
    rw [if_neg (by decide)]
  have hfind : (smartCandidates sampleSmartSource [sampleSmartCand]).find?
      (fun c => decide (c.id = ("cand" : String))) = some sampleSmartCand := by decide
  simp only [smartResultsPre]
  rw [hmr]
  simp only [List.filterMap_cons, List.filterMap_nil]
  rw [hfind]
  simp only [Option.map_some', Bool.not_true]
  rw [hj]

theorem findSmartMatches_sameReporter_eval :
    findSmartMatches sampleSmartSource [sampleSmartCand] (.parsed [⟨"cand", 60⟩]) =
      [⟨sampleSmartCand, 60, false⟩] := by
  simp only [findSmartMatches]
  rw [if_neg (by decide), smartResultsPre_sameReporter_eval]
  rfl

/-- C8 (amended): every entry of `findSmartMatches` refers to a report drawn
from the filtered candidate set — opposite type, status `OPEN`, not the source
item itself — and carries an id present in the used match-result list (so any
model-returned id outside the candidate set is dropped); the result is sorted
descending by confidence; and the sort is stable: any two entries in
non-ascending confidence order in the pre-sort result list
(`smartResultsPre`, which is in match-result order) keep their relative order
in the output — in particular confidence ties keep the order of the
match-result list. The filter does NOT exclude reports by the source item's
own reporter. -/
theorem c8_find_smart_matches (sourceItem : ItemReport) (allReports : List ItemReport)
    (ai : SmartAIReply) :
    (∀ e ∈ findSmartMatches sourceItem allReports ai,
      e.report ∈ smartCandidates sourceItem allReports ∧
      e.report ∈ allReports ∧
      e.report.status = ItemStatus.OPEN ∧
      e.report.type =
        (if sourceItem.type = ReportType.LOST then ReportType.FOUND else ReportType.LOST) ∧
      e.report.id ≠ sourceItem.id ∧
      (∃ m ∈ (smartMatchResults sourceItem (smartCandidates sourceItem allReports) ai).1,
        e.report.id = m.id)) ∧
    (findSmartMatches sourceItem allReports ai).Pairwise
      (fun a b => b.confidence ≤ a.confidence) ∧
    (∀ a b : SmartMatch, b.confidence ≤ a.confidence →
      [a, b].Sublist (smartResultsPre sourceItem allReports ai) →
      [a, b].Sublist (findSmartMatches sourceItem allReports ai)) := by
  refine ⟨?_, ?_, ?_⟩
  · intro e he
    simp only [findSmartMatches] at he
    split_ifs at he with hb
    · exact absurd he (List.not_mem_nil e)
    · have he2 := (sortByKeyDesc_perm _ _).mem_iff.mp he
      obtain ⟨m, hm, hfm⟩ := List.mem_filterMap.mp he2
      obtain ⟨rep, hfind, heq⟩ := Option.map_eq_some'.mp hfm
      have hmem : rep ∈ smartCandidates sourceItem allReports :=
        List.mem_of_find?_eq_some hfind
      have hid : rep.id = m.id := by
        have hp := List.find?_some hfind
        simpa using hp
      have hbase := smartCandidates_subset sourceItem allReports rep hmem
      rw [mem_smartCandidatesBase] at hbase
      have hrep : e.report = rep := by rw [← heq]
      exact ⟨hrep ▸ hmem, hrep ▸ hbase.1, hrep ▸ hbase.2.1, hrep ▸ hbase.2.2.1,
        hrep ▸ hbase.2.2.2, ⟨m, hm, hrep ▸ hid⟩⟩
  · simp only [findSmartMatches]
    split_ifs with hb
    · exact List.Pairwise.nil
    · exact sortByKeyDesc_pairwise _ _
  · intro a b hk hsub
    simp only [findSmartMatches]
    split_ifs with hb
    · rw [smartResultsPre_nil sourceItem allReports ai hb] at hsub
      exact absurd (List.sublist_nil.mp hsub) (by simp)
    · exact sortByKeyDesc_stable _ _ a b hk hsub

theorem smartResultsPre_tie_eval :
    smartResultsPre sampleSmartSource [sampleSmartCand, sampleSmartCand2]
      (.parsed [⟨"cand", 60⟩, ⟨"cand2", 60⟩]) =
      [⟨sampleSmartCand, 60, false⟩, ⟨sampleSmartCand2, 60, false⟩] := by
  have hj : jsRound (60 : ℚ) = 60 := by
    rw [show (60 : ℚ) = ((60 : ℤ) : ℚ) by norm_num, jsRound_intCast]
  have hmr : smartMatchResults sampleSmartSource
      (smartCandidates sampleSmartSource [sampleSmartCand, sampleSmartCand2])
      (.parsed [⟨"cand", 60⟩, ⟨"cand2", 60⟩]) =
      ([⟨"cand", 60⟩, ⟨"cand2", 60⟩], true) := by
    simp only [smartMatchResults]
    rw [if_neg (by decide)]
  have hfind1 : (smartCandidates sampleSmartSource [sampleSmartCand, sampleSmartCand2]).find?
      (fun c => decide (c.id = ("cand" : String))) = some sampleSmartCand := by decide
  have hfind2 : (smartCandidates sampleSmartSource [sampleSmartCand, sampleSmartCand2]).find?
      (fun c => decide (c.id = ("cand2" : String))) = some sampleSmartCand2 := by decide
  simp only [smartResultsPre]
  rw [hmr]
  simp only [List.filterMap_cons, List.filterMap_nil]
  rw [hfind1, hfind2]
  simp only [Option.map_some', Bool.not_true]
  rw [hj]

/-- Witness for C8 (amended): the same-reporter candidate is returned and
satisfies the amended filter facts, and two equal-confidence entries keep
their match-result order through the sort. -/
theorem c8_find_smart_matches_witness :
    (sampleSmartCand ∈ [sampleSmartCand] ∧ sampleSmartCand.status = ItemStatus.OPEN) ∧
    [(⟨sampleSmartCand, 60, false⟩ : SmartMatch), ⟨sampleSmartCand2, 60, false⟩].Sublist
      (findSmartMatches sampleSmartSource [sampleSmartCand, sampleSmartCand2]
        (.parsed [⟨"cand", 60⟩, ⟨"cand2", 60⟩])) := by
  constructor
  · have h := (c8_find_smart_matches sampleSmartSource [sampleSmartCand]
        (.parsed [⟨"cand", 60⟩])).1 ⟨sampleSmartCand, 60, false⟩
        (by rw [findSmartMatches_sameReporter_eval]; exact List.mem_singleton_self _)
    exact ⟨h.2.1, h.2.2.1⟩
  · refine (c8_find_smart_matches sampleSmartSource [sampleSmartCand, sampleSmartCand2]
        (.parsed [⟨"cand", 60⟩, ⟨"cand2", 60⟩])).2.2
      ⟨sampleSmartCand, 60, false⟩ ⟨sampleSmartCand2, 60, false⟩ (by decide) ?_
    rw [smartResultsPre_tie_eval]

/-- Counterexample for C8: `findSmartMatches` returns a report filed by the
source item's own reporter (`"U1"`), so the frozen claim's "not reported by the
same reporter" filter clause is false — the code filters only on status, type
and the item id. -/
theorem c8_find_smart_matches_counterexample :
    findSmartMatches sampleSmartSource [sampleSmartCand] (.parsed [⟨"cand", 60⟩]) =
      [⟨sampleSmartCand, 60, false⟩] ∧
    sampleSmartCand.reporterId = sampleSmartSource.reporterId :=
  ⟨findSmartMatches_sameReporter_eval, rfl⟩

theorem mem_mapSet (l : List ((String ⊕ ℤ) × Message)) (k : String ⊕ ℤ) (v : Message)
    (p : (String ⊕ ℤ) × Message) (hp : p ∈ mapSet l k v) :
    (p ∈ l ∧ p.1 ≠ k) ∨ p = (k, v) := by
  simp only [mapSet] at hp
  split_ifs at hp with h
  · obtain ⟨q, hq, hqe⟩ := List.mem_map.mp hp
    by_cases hqk : q.1 = k
    · right
      rw [← hqe, if_pos hqk]
    · left
      rw [← hqe, if_neg hqk]
      exact ⟨hq, hqk⟩
  · rcases List.mem_append.mp hp with h1 | h1
    · left
      refine ⟨h1, ?_⟩
      simp only [List.any_eq_true, decide_eq_true_eq, not_exists, not_and] at h
      intro hk
      exact absurd hk (h p h1)
    · right
      simpa using h1

theorem exists_key_mapSet (l : List ((String ⊕ ℤ) × Message)) (k : String ⊕ ℤ) (v : Message) :
    ∃ p ∈ mapSet l k v, p.1 = k := by
  simp only [mapSet]
  split_ifs with h
  · obtain ⟨q, hq⟩ := List.any_eq_true.mp h
    refine ⟨(k, v), List.mem_map.mpr ⟨q, hq.1, ?_⟩, rfl⟩
    rw [if_pos (of_decide_eq_true hq.2)]
  · exact ⟨(k, v), List.mem_append.mpr (Or.inr (List.mem_singleton_self _)), rfl⟩

theorem key_preserved_mapSet (l : List ((String ⊕ ℤ) × Message)) (k : String ⊕ ℤ)
    (v : Message) (p : (String ⊕ ℤ) × Message) (hp : p ∈ l) :
    ∃ p' ∈ mapSet l k v, p'.1 = p.1 := by
  simp only [mapSet]
  split_ifs with h
  · by_cases hpk : p.1 = k
    · refine ⟨(k, v), List.mem_map.mpr ⟨p, hp, by rw [if_pos hpk]⟩, hpk.symm⟩
    · refine ⟨p, List.mem_map.mpr ⟨p, hp, by rw [if_neg hpk]⟩, rfl⟩
  · exact ⟨p, List.mem_append.mpr (Or.inl hp), rfl⟩

theorem foldl_mapSetMsg_mem (ms : List Message) :
    ∀ (acc : List ((String ⊕ ℤ) × Message)) (p : (String ⊕ ℤ) × Message),
      p ∈ ms.foldl mapSetMsg acc →
      (p ∈ acc ∧ p.1 ∉ ms.map messageKey) ∨ (p.2 ∈ ms ∧ p.1 = messageKey p.2) := by
  induction ms with
  | nil =>
    intro acc p hp
    exact Or.inl ⟨hp, by simp⟩
  | cons m rest ih =>
    intro acc p hp
    rcases ih (mapSetMsg acc m) p hp with ⟨hp1, hp2⟩ | ⟨hp1, hp2⟩
    · rcases mem_mapSet acc (messageKey m) m p hp1 with ⟨hq1, hq2⟩ | hq
      · left
        refine ⟨hq1, ?_⟩
        simp only [List.map_cons, List.mem_cons, not_or]
        exact ⟨hq2, hp2⟩
      · right
        rw [hq]
        exact ⟨List.mem_cons_self m rest, rfl⟩
    · right
      exact ⟨List.mem_cons_of_mem m hp1, hp2⟩

theorem buildMessageMap_src (legacy sub : List Message) (p : (String ⊕ ℤ) × Message)
    (hp : p ∈ buildMessageMap legacy sub) :
    (p.2 ∈ legacy ∨ p.2 ∈ sub) ∧ p.1 = messageKey p.2 := by
  rcases foldl_mapSetMsg_mem sub _ p hp with ⟨hp1, _⟩ | ⟨hp1, hp2⟩
  · rcases foldl_mapSetMsg_mem legacy _ p hp1 with ⟨hq1, _⟩ | ⟨hq1, hq2⟩
    · exact absurd hq1 (List.not_mem_nil p)
    · exact ⟨Or.inl hq1, hq2⟩
  · exact ⟨Or.inr hp1, hp2⟩

theorem buildMessageMap_sub_wins (legacy sub : List Message)
    (p : (String ⊕ ℤ) × Message) (hp : p ∈ buildMessageMap legacy sub)
    (hk : p.1 ∈ sub.map messageKey) : p.2 ∈ sub := by
  rcases foldl_mapSetMsg_mem sub _ p hp with ⟨_, hp2⟩ | ⟨hp1, _⟩
  · exact absurd hk hp2
  · exact hp1

theorem foldl_mapSetMsg_key_preserved (ms : List Message) :
    ∀ (acc : List ((String ⊕ ℤ) × Message)) (p : (String ⊕ ℤ) × Message), p ∈ acc →
      ∃ p' ∈ ms.foldl mapSetMsg acc, p'.1 = p.1 := by
  induction ms with
  | nil => intro acc p hp; exact ⟨p, hp, rfl⟩
  | cons m rest ih =>
    intro acc p hp
    obtain ⟨q, hq, hqk⟩ := key_preserved_mapSet acc (messageKey m) m p hp
    obtain ⟨p', hp', hk'⟩ := ih (mapSetMsg acc m) q hq
    exact ⟨p', hp', hk'.trans hqk⟩

theorem foldl_mapSetMsg_covers (ms : List Message) :
    ∀ (acc : List ((String ⊕ ℤ) × Message)) (m : Message), m ∈ ms →
      ∃ p ∈ ms.foldl mapSetMsg acc, p.1 = messageKey m := by
  induction ms with
  | nil => intro acc m hm; exact absurd hm (List.not_mem_nil m)
  | cons m0 rest ih =>
    intro acc m hm
    rcases List.mem_cons.mp hm with rfl | hm'
    · obtain ⟨q, hq, hqk⟩ := exists_key_mapSet acc (messageKey m) m
      obtain ⟨p', hp', hk'⟩ := foldl_mapSetMsg_key_preserved rest (mapSetMsg acc m) q hq
      exact ⟨p', hp', hk'.trans hqk⟩
    · exact ih (mapSetMsg acc m0) m hm'

theorem buildMessageMap_covers (legacy sub : List Message) (m : Message)
    (hm : m ∈ legacy ++ sub) :
    ∃ p ∈ buildMessageMap legacy sub, p.1 = messageKey m := by
  rcases List.mem_append.mp hm with h | h
  · obtain ⟨q, hq, hqk⟩ := foldl_mapSetMsg_covers legacy [] m h
    obtain ⟨p', hp', hk'⟩ := foldl_mapSetMsg_key_preserved sub _ q hq
    exact ⟨p', hp', hk'.trans hqk⟩
  · exact foldl_mapSetMsg_covers sub _ m h

theorem mapSet_keys (l : List ((String ⊕ ℤ) × Message)) (k : String ⊕ ℤ) (v : Message)
    (h : (l.map Prod.fst).Nodup) : ((mapSet l k v).map Prod.fst).Nodup := by
  simp only [mapSet]
  split_ifs with hc
  · have heq : (l.map (fun p => if p.1 = k then (k, v) else p)).map Prod.fst = l.map Prod.fst := by
      rw [List.map_map]
      refine List.map_congr_left ?_
      intro p _
      simp only [Function.comp]
      split_ifs with hpk
      · exact hpk.symm
      · rfl
    rw [heq]
    exact h
  · rw [List.map_append]
    simp only [List.map_cons, List.map_nil]
    rw [List.nodup_append]
    refine ⟨h, List.nodup_singleton k, ?_⟩
    intro x hx
    simp only [List.any_eq_true, decide_eq_true_eq, not_exists, not_and] at hc
    obtain ⟨q, hq, hqk⟩ := List.mem_map.mp hx
    simp only [List.mem_singleton]
    intro hxk
    exact hc q hq (hqk.trans hxk)

theorem foldl_mapSetMsg_keys (ms : List Message) :
    ∀ (acc : List ((String ⊕ ℤ) × Message)), ((acc.map Prod.fst).Nodup) →
      (((ms.foldl mapSetMsg acc).map Prod.fst).Nodup) := by
  induction ms with
  | nil => intro acc h; exact h
  | cons m rest ih => intro acc h; exact ih _ (mapSet_keys acc (messageKey m) m h)

theorem buildMessageMap_keys (legacy sub : List Message) :
    ((buildMessageMap legacy sub).map Prod.fst).Nodup :=
  foldl_mapSetMsg_keys sub _ (foldl_mapSetMsg_keys legacy [] (by simp))

/-- C3: the chat message merge is the key-based union of the legacy list and
the subcollection stream — every merged message comes from one of the two
sources, every source key is represented, the subcollection entry wins on key
collision, keys are deduplicated — sorted ascending by timestamp; and the
spec's concrete example merges to exactly `[a(updated), b]`. -/
theorem c3_chat_merge :
    allMessages [legacyMsgA] [subMsgA, subMsgB] = [subMsgA, subMsgB] ∧
    ∀ legacy sub : List Message,
      (∀ m ∈ allMessages legacy sub, m ∈ legacy ∨ m ∈ sub) ∧
      (∀ m ∈ legacy ++ sub, ∃ m' ∈ allMessages legacy sub, messageKey m' = messageKey m) ∧
      (∀ m' ∈ allMessages legacy sub,
        (∃ m ∈ sub, messageKey m = messageKey m') → m' ∈ sub) ∧
      (allMessages legacy sub).Pairwise (fun a b => messageKey a ≠ messageKey b) ∧
      (allMessages legacy sub).Pairwise (fun a b => a.timestamp ≤ b.timestamp) := by
  constructor
  · decide
  · intro legacy sub
    refine ⟨?_, ?_, ?_, ?_, sortByKeyAsc_pairwise _ _⟩
    · intro m hm
      have hm2 := (sortByKeyAsc_perm _ _).mem_iff.mp hm
      obtain ⟨p, hp, hps⟩ := List.mem_map.mp hm2
      exact hps ▸ (buildMessageMap_src legacy sub p hp).1
    · intro m hm
      obtain ⟨p, hp, hpk⟩ := buildMessageMap_covers legacy sub m hm
      refine ⟨p.2, ?_, ?_⟩
      · exact (sortByKeyAsc_perm _ _).mem_iff.mpr (List.mem_map.mpr ⟨p, hp, rfl⟩)
      · rw [← (buildMessageMap_src legacy sub p hp).2, hpk]
    · intro m' hm' ⟨m, hm, hk⟩
      have hm2 := (sortByKeyAsc_perm _ _).mem_iff.mp hm'
      obtain ⟨p, hp, hps⟩ := List.mem_map.mp hm2
      refine hps ▸ buildMessageMap_sub_wins legacy sub p hp ?_
      rw [(buildMessageMap_src legacy sub p hp).2, hps, ← hk]
      exact List.mem_map.mpr ⟨m, hm, rfl⟩
    · have hkeys := buildMessageMap_keys legacy sub
      have h1 : (buildMessageMap legacy sub).Pairwise (fun p q => p.1 ≠ q.1) :=
        List.pairwise_map.mp hkeys
      have h2 : (buildMessageMap legacy sub).Pairwise
          (fun p q => messageKey p.2 ≠ messageKey q.2) := by
        refine List.Pairwise.imp_of_mem ?_ h1
        intro a b ha hb hab
        rw [← (buildMessageMap_src legacy sub a ha).2,
          ← (buildMessageMap_src legacy sub b hb).2]
        exact hab
      have h3 : ((buildMessageMap legacy sub).map Prod.snd).Pairwise
          (fun a b => messageKey a ≠ messageKey b) := List.pairwise_map.mpr h2
      exact ((sortByKeyAsc_perm _ _).pairwise_iff (fun h => Ne.symm h)).mpr h3

/-- Witness for C3: the general clauses applied at the concrete example —
`subMsgB` is drawn from one of the two sources, and the legacy key `"a"` is
represented in the merged result. -/
theorem c3_chat_merge_witness :
    (subMsgB ∈ [legacyMsgA] ∨ subMsgB ∈ [subMsgA, subMsgB]) ∧
    (∃ m' ∈ allMessages [legacyMsgA] [subMsgA, subMsgB],
      messageKey m' = messageKey legacyMsgA) := by
  refine ⟨(c3_chat_merge.2 [legacyMsgA] [subMsgA, subMsgB]).1 subMsgB ?_,
    (c3_chat_merge.2 [legacyMsgA] [subMsgA, subMsgB]).2.1 legacyMsgA (by decide)⟩
  rw [c3_chat_merge.1]
  decide

theorem applyBatch_cons_reset (chat : ChatDoc) (subs : List Message) (ops : List BatchOp) :
    applyBatch chat subs (BatchOp.resetUnread :: ops) =
      applyBatch { chat with unreadCount := 0 } subs ops := rfl

theorem applyBatch_cons_setRead (chat : ChatDoc) (subs : List Message) (mid : String)
    (ops : List BatchOp) :
    applyBatch chat subs (BatchOp.setRead mid :: ops) =
      applyBatch chat
        (subs.map (fun m => if m.id = some mid then { m with status := .read } else m)) ops := rfl

theorem applyOps_cons_reset (ops : List BatchOp) (m : Message) :
    applyOps (BatchOp.resetUnread :: ops) m = applyOps ops m := rfl

theorem applyOps_cons_setRead (ops : List BatchOp) (mid : String) (m : Message) :
    applyOps (BatchOp.setRead mid :: ops) m =
      applyOps ops (if m.id = some mid then { m with status := .read } else m) := rfl

theorem applyBatch_snd (ops : List BatchOp) :
    ∀ (chat : ChatDoc) (subs : List Message),
      (applyBatch chat subs ops).2 = subs.map (applyOps ops) := by
  induction ops with
  | nil =>
    intro chat subs
    have h : subs.map (applyOps []) = subs.map id := List.map_congr_left (fun m _ => rfl)
    rw [h, List.map_id]
    rfl
  | cons op ops ih =>
    intro chat subs
    cases op with
    | resetUnread =>
      rw [applyBatch_cons_reset, ih]
      exact List.map_congr_left (fun m _ => rfl)
    | setRead mid =>
      rw [applyBatch_cons_setRead, ih, List.map_map]
      exact List.map_congr_left (fun m _ => rfl)

theorem applyBatch_fst_frame (ops : List BatchOp) :
    ∀ (chat : ChatDoc) (subs : List Message),
      ((applyBatch chat subs ops).1).messages = chat.messages ∧
      ((applyBatch chat subs ops).1).lastSenderId = chat.lastSenderId := by
  induction ops with
  | nil => intro chat subs; exact ⟨rfl, rfl⟩
  | cons op ops ih =>
    intro chat subs
    cases op with
    | resetUnread =>
      rw [applyBatch_cons_reset]
      exact ih { chat with unreadCount := 0 } subs
    | setRead mid =>
      rw [applyBatch_cons_setRead]
      exact ih chat _

theorem applyBatch_unreadCount (ops : List BatchOp) :
    ∀ (chat : ChatDoc) (subs : List Message),
      ((applyBatch chat subs ops).1).unreadCount =
        if BatchOp.resetUnread ∈ ops then 0 else chat.unreadCount := by
  induction ops with
  | nil =>
    intro chat subs
    simp [applyBatch]
  | cons op ops ih =>
    intro chat subs
    cases op with
    | resetUnread =>
      rw [applyBatch_cons_reset, ih]
      simp [List.mem_cons]
    | setRead mid =>
      rw [applyBatch_cons_setRead, ih]
      have h : (BatchOp.resetUnread ∈ BatchOp.setRead mid :: ops) ↔
          BatchOp.resetUnread ∈ ops := by
        simp [List.mem_cons]
      rw [if_congr h rfl rfl]

theorem applyOps_frame (ops : List BatchOp) :
    ∀ m : Message, (applyOps ops m).senderId = m.senderId ∧ (applyOps ops m).id = m.id := by
  induction ops with
  | nil => intro m; exact ⟨rfl, rfl⟩
  | cons op ops ih =>
    intro m
    cases op with
    | resetUnread =>
      rw [applyOps_cons_reset]
      exact ih m
    | setRead mid =>
      rw [applyOps_cons_setRead]
      rcases ih (if m.id = some mid then { m with status := .read } else m) with ⟨h1, h2⟩
      rw [h1, h2]
      constructor <;> split_ifs <;> rfl

theorem applyOps_read_preserved (ops : List BatchOp) :
    ∀ m : Message, m.status = .read → (applyOps ops m).status = .read := by
  induction ops with
  | nil => intro m h; exact h
  | cons op ops ih =>
    intro m h
    cases op with
    | resetUnread =>
      rw [applyOps_cons_reset]
      exact ih m h
    | setRead mid =>
      rw [applyOps_cons_setRead]
      apply ih
      split_ifs <;> simp [h]

theorem applyOps_sets_read (ops : List BatchOp) :
    ∀ (m : Message) (mid : String), BatchOp.setRead mid ∈ ops → m.id = some mid →
      (applyOps ops m).status = .read := by
  induction ops with
  | nil => intro m mid h _; exact absurd h (List.not_mem_nil _)
  | cons op ops ih =>
    intro m mid hmem hid
    rcases List.mem_cons.mp hmem with rfl | hmem_r
    · rw [applyOps_cons_setRead, if_pos hid]
      exact applyOps_read_preserved ops _ rfl
    · cases op with
      | resetUnread =>
        rw [applyOps_cons_reset]
        exact ih m mid hmem_r hid
      | setRead mid_o =>
        rw [applyOps_cons_setRead]
        apply ih _ mid hmem_r
        split_ifs <;> simpa using hid

theorem setRead_mem_reconcileBatch (userId : String) (chat : ChatDoc)
    (subMsgs : List Message) (m : Message) (mid : String) (hm : m ∈ subMsgs)
    (hsender : m.senderId ≠ userId) (hstatus : m.status ≠ .read)
    (hid : m.id = some mid) :
    BatchOp.setRead mid ∈ reconcileBatch userId chat subMsgs := by
  simp only [reconcileBatch]
  refine List.mem_append.mpr (Or.inl ?_)
  refine List.mem_filterMap.mpr ⟨m, List.mem_filter.mpr ⟨hm, ?_⟩, ?_⟩
  · simp [hsender, hstatus]
  · rw [hid]
    rfl

theorem resetUnread_mem_reconcileBatch (userId : String) (chat : ChatDoc)
    (subMsgs : List Message) (hunread : chat.unreadCount > 0)
    (hsender : chat.lastSenderId ≠ userId) :
    BatchOp.resetUnread ∈ reconcileBatch userId chat subMsgs := by
  simp only [reconcileBatch]
  refine List.mem_append.mpr (Or.inr ?_)
  rw [if_pos ⟨hunread, hsender⟩]
  exact List.mem_singleton_self _

/-- C2 (amended): when the viewer has the chat open, is not the last sender,
and `unreadCount > 0`, the single reconciliation batch resets `unreadCount` to
`0` and transitions every subcollection message not authored by the viewer to
`READ` (subcollection snapshots always carry their document id, the stated
hypothesis); legacy embedded messages are not part of the batch and keep their
status. -/
theorem c2_read_reconciliation (userId : String) (chat : ChatDoc)
    (subMsgs : List Message) (hsender : chat.lastSenderId ≠ userId)
    (hunread : chat.unreadCount > 0) (hids : ∀ m ∈ subMsgs, m.id.isSome) :
    ((reconcile userId chat subMsgs).1).unreadCount = 0 ∧
    (∀ m' ∈ (reconcile userId chat subMsgs).2,
      m'.senderId ≠ userId → m'.status = .read) ∧
    ((reconcile userId chat subMsgs).1).messages = chat.messages := by
  refine ⟨?_, ?_, (applyBatch_fst_frame _ chat subMsgs).1⟩
  · have h := applyBatch_unreadCount (reconcileBatch userId chat subMsgs) chat subMsgs
    rw [if_pos (resetUnread_mem_reconcileBatch userId chat subMsgs hunread hsender)] at h
    exact h
  · intro m' hm' hsender'
    have hm2 : m' ∈ subMsgs.map (applyOps (reconcileBatch userId chat subMsgs)) := by
      rw [← applyBatch_snd]
      exact hm'
    obtain ⟨m, hm, hmap⟩ := List.mem_map.mp hm2
    by_cases hread : m.status = .read
    · rw [← hmap]
      exact applyOps_read_preserved _ m hread
    · have hsend : m.senderId ≠ userId := by
        rw [← hmap] at hsender'
        rwa [(applyOps_frame _ m).1] at hsender'
      obtain ⟨mid, hmid⟩ := Option.isSome_iff_exists.mp (hids m hm)
      rw [← hmap]
      exact applyOps_sets_read _ m mid
        (setRead_mem_reconcileBatch userId chat subMsgs m mid hm hsend hread hmid) hmid

/-- Witness for C2 (amended): a chat with `unreadCount = 5`, last sender
`"U1"`, viewer `"U2"` and one unread subcollection message ends with
`unreadCount = 0` and the message readable only as READ. -/
theorem c2_read_reconciliation_witness :
    ((reconcile "U2" chatW [subMsgUnread]).1).unreadCount = 0 ∧
    (∀ m' ∈ (reconcile "U2" chatW [subMsgUnread]).2,
      m'.senderId ≠ "U2" → m'.status = .read) ∧
    ((reconcile "U2" chatW [subMsgUnread]).1).messages = chatW.messages :=
  c2_read_reconciliation "U2" chatW [subMsgUnread] (by decide) (by decide) (by decide)

/-- Counterexample for C2: with the only unread other-sender message stored in
the legacy embedded list, reconciliation resets `unreadCount` but the chat's
merged message view still contains a message from `"U1"` that is not READ — the
frozen claim's "every message not authored by the viewer has status READ"
fails for legacy-channel messages. -/
theorem c2_read_reconciliation_counterexample :
    ((reconcile "U2" chatLegacy []).1).unreadCount = 0 ∧
    (∃ m ∈ allMessages ((reconcile "U2" chatLegacy []).1).messages
        (reconcile "U2" chatLegacy []).2,
      m.senderId ≠ "U2" ∧ m.status ≠ .read) := by decide

theorem mem_banInsert_of_mem (bans : List String) (m x : String) (hx : x ∈ bans) :
    x ∈ banInsert bans m := by
  unfold banInsert
  split_ifs
  · exact hx
  · exact List.mem_cons_of_mem _ hx

theorem self_mem_banInsert (bans : List String) (m : String) : m ∈ banInsert bans m := by
  unfold banInsert
  split_ifs with h
  · exact h
  · exact List.mem_cons_self _ _

theorem not_mem_available (bans : List String) (x : String) (hx : x ∈ bans) :
    x ∉ getAvailableModels bans := by
  intro hmem
  have h := (List.mem_filter.mp hmem).2
  simp only [Bool.not_eq_true', decide_eq_false_iff_not] at h
  exact h hx

theorem runPipeline_bans_mono (attempt : String → Outcome) :
    ∀ (models bans : List String) (x : String), x ∈ bans →
      x ∈ (runPipeline attempt models bans).bans := by
  intro models
  induction models with
  | nil => intro bans x hx; exact hx
  | cons m rest ih =>
    intro bans x hx
    cases hA : attempt m with
    | success t =>
      simp only [runPipeline, hA]
      exact hx
    | failure s msg =>
      simp only [runPipeline, hA]
      refine ih _ x ?_
      split_ifs with hb
      · exact mem_banInsert_of_mem bans m x hx
      · exact hx

theorem runPipeline_trace_subset (attempt : String → Outcome) :
    ∀ (models bans : List String) (x : String),
      x ∈ (runPipeline attempt models bans).trace → x ∈ models := by
  intro models
  induction models with
  | nil => intro bans x hx; exact absurd hx (List.not_mem_nil x)
  | cons m rest ih =>
    intro bans x hx
    cases hA : attempt m with
    | success t =>
      simp only [runPipeline, hA] at hx
      have hxm : x = m := List.mem_singleton.mp hx
      exact hxm ▸ List.mem_cons_self m rest
    | failure s msg =>
      simp only [runPipeline, hA] at hx
      rcases List.mem_cons.mp hx with rfl | hx'
      · exact List.mem_cons_self x rest
      · exact List.mem_cons_of_mem m (ih _ x hx')

theorem runPipeline_ban_on_failure (attempt : String → Outcome) :
    ∀ (models bans : List String) (x : String) (s : ℕ) (msg : String),
      x ∈ (runPipeline attempt models bans).trace → attempt x = .failure s msg →
      shouldBan s msg = true → x ∈ (runPipeline attempt models bans).bans := by
  intro models
  induction models with
  | nil => intro bans x s msg hx; exact absurd hx (List.not_mem_nil x)
  | cons m rest ih =>
    intro bans x s msg hx hfail hban
    cases hA : attempt m with
    | success t =>
      simp only [runPipeline, hA] at hx
      have hxm : x = m := List.mem_singleton.mp hx
      rw [hxm, hA] at hfail
      exact absurd hfail (by simp)
    | failure s0 msg0 =>
      simp only [runPipeline, hA] at hx ⊢
      rcases List.mem_cons.mp hx with rfl | hx'
      · rw [hA] at hfail
        injection hfail with h1 h2
        subst h1
        subst h2
        refine runPipeline_bans_mono attempt rest _ x ?_
        rw [if_pos hban]
        exact self_mem_banInsert bans x
      · exact ih _ x s msg hx' hfail hban

theorem runPipeline_trace_all (attempt : String → Outcome) :
    ∀ (models bans : List String),
      (runPipeline attempt models bans).success = none →
      (runPipeline attempt models bans).trace = models := by
  intro models
  induction models with
  | nil => intro bans _; rfl
  | cons m rest ih =>
    intro bans hs
    cases hA : attempt m with
    | success t =>
      simp only [runPipeline, hA] at hs
      exact absurd hs (by simp)
    | failure s msg =>
      simp only [runPipeline, hA] at hs ⊢
      rw [ih _ hs]

theorem gauntletRetry_bans_mono (attempt : String → Outcome) (bans : List String)
    (x : String) (hx : x ∈ bans) : x ∈ (gauntletRetry attempt bans).bans := by
  simp only [gauntletRetry]
  split_ifs with h
  · exact hx
  · cases hs : (runPipeline attempt (getAvailableModels bans) bans).success with
    | some t => exact runPipeline_bans_mono attempt _ bans x hx
    | none => exact runPipeline_bans_mono attempt _ bans x hx

theorem gauntletRetry_trace_avoids (attempt : String → Outcome) (bans : List String)
    (x : String) (hx : x ∈ bans) : x ∉ (gauntletRetry attempt bans).trace := by
  simp only [gauntletRetry]
  split_ifs with h
  · exact List.not_mem_nil x
  · cases hs : (runPipeline attempt (getAvailableModels bans) bans).success with
    | some t =>
      intro hmem
      exact not_mem_available bans x hx (runPipeline_trace_subset attempt _ bans x hmem)
    | none =>
      intro hmem
      exact not_mem_available bans x hx (runPipeline_trace_subset attempt _ bans x hmem)

theorem gauntletRetry_ban_on_failure (attempt : String → Outcome) (bans : List String)
    (x : String) (s : ℕ) (msg : String) (hx : x ∈ (gauntletRetry attempt bans).trace)
    (hfail : attempt x = .failure s msg) (hban : shouldBan s msg = true) :
    x ∈ (gauntletRetry attempt bans).bans := by
  simp only [gauntletRetry] at hx ⊢
  split_ifs at hx ⊢ with h
  · exact absurd hx (List.not_mem_nil x)
  · cases hs : (runPipeline attempt (getAvailableModels bans) bans).success with
    | some t =>
      rw [hs] at hx
      exact runPipeline_ban_on_failure attempt _ bans x s msg hx hfail hban
    | none =>
      rw [hs] at hx
      exact runPipeline_ban_on_failure attempt _ bans x s msg hx hfail hban

theorem gauntletRun_trace_avoids (attempt : String → Outcome) (bans : List String)
    (x : String) (hx : x ∈ bans) : x ∉ (gauntletRun attempt bans).trace := by
  simp only [gauntletRun]
  split_ifs with h
  · exact List.not_mem_nil x
  · cases hs : (runPipeline attempt (getAvailableModels bans) bans).success with
    | some t =>
      intro hmem
      exact not_mem_available bans x hx (runPipeline_trace_subset attempt _ bans x hmem)
    | none =>
      intro hmem
      rcases List.mem_append.mp hmem with h1 | h1
      · exact not_mem_available bans x hx (runPipeline_trace_subset attempt _ bans x h1)
      · exact gauntletRetry_trace_avoids attempt _ x
          (runPipeline_bans_mono attempt _ bans x hx) h1

theorem gauntletRun_ban_on_failure (attempt : String → Outcome) (bans : List String)
    (x : String) (s : ℕ) (msg : String) (hx : x ∈ (gauntletRun attempt bans).trace)
    (hfail : attempt x = .failure s msg) (hban : shouldBan s msg = true) :
    x ∈ (gauntletRun attempt bans).bans := by
  simp only [gauntletRun] at hx ⊢
  split_ifs at hx ⊢ with h
  · exact absurd hx (List.not_mem_nil x)
  · cases hs : (runPipeline attempt (getAvailableModels bans) bans).success with
    | some t =>
      rw [hs] at hx
      exact runPipeline_ban_on_failure attempt _ bans x s msg hx hfail hban
    | none =>
      rw [hs] at hx
      rcases List.mem_append.mp hx with h1 | h1
      · exact gauntletRetry_bans_mono attempt _ x
          (runPipeline_ban_on_failure attempt _ bans x s msg h1 hfail hban)
      · exact gauntletRetry_ban_on_failure attempt _ x s msg h1 hfail hban

theorem gauntletRun_error_trace (attempt : String → Outcome) (e : GauntletError)
    (h : (gauntletRun attempt []).result = .error e) :
    ∀ m ∈ MODEL_PIPELINE, m ∈ (gauntletRun attempt []).trace := by
  simp only [gauntletRun] at h ⊢
  split_ifs at h ⊢ with hcond
  · exact absurd hcond (by decide)
  · cases hs : (runPipeline attempt (getAvailableModels []) []).success with
    | some t =>
      rw [hs] at h
      exact absurd h (by simp)
    | none =>
      intro m hm
      refine List.mem_append.mpr (Or.inl ?_)
      rw [runPipeline_trace_all attempt _ _ hs]
      rw [show getAvailableModels ([] : List String) = MODEL_PIPELINE from by decide]
      exact hm

/-- C1: session exclusion and self-heal of the model cascade. (i) A banned
model is never attempted in a call whose available pipeline is non-empty;
(ii) a model attempted in a call whose attempt fails with a 404/not-found or
429/quota/exhausted error is in the session ban set after the call; (iii)
hence such a model is excluded from all attempts of a subsequent call in the
same session, as long as the exclusion set has not emptied the ordering;
(iv) when the exclusion set has emptied the ordering, the call clears it once
and behaves exactly as a fresh-ban call over the full ordering; (v) in that
case a total failure is declared only after every model of the full ordering
was attempted. -/
theorem c1_cascade_session_exclusion :
    (∀ (attempt : String → Outcome) (bans : List String) (m : String),
      m ∈ bans → getAvailableModels bans ≠ [] →
      m ∉ (gauntletCall attempt bans).trace) ∧
    (∀ (attempt : String → Outcome) (bans : List String) (m : String) (s : ℕ) (msg : String),
      m ∈ (gauntletCall attempt bans).trace → attempt m = .failure s msg →
      shouldBan s msg = true → m ∈ (gauntletCall attempt bans).bans) ∧
    (∀ (attempt1 attempt2 : String → Outcome) (bans : List String) (m : String)
      (s : ℕ) (msg : String),
      m ∈ (gauntletCall attempt1 bans).trace → attempt1 m = .failure s msg →
      shouldBan s msg = true →
      getAvailableModels (gauntletCall attempt1 bans).bans ≠ [] →
      m ∉ (gauntletCall attempt2 (gauntletCall attempt1 bans).bans).trace) ∧
    (∀ (attempt : String → Outcome) (bans : List String),
      getAvailableModels bans = [] → gauntletCall attempt bans = gauntletCall attempt []) ∧
    (∀ (attempt : String → Outcome) (bans : List String) (e : GauntletError),
      getAvailableModels bans = [] → (gauntletCall attempt bans).result = .error e →
      ∀ m ∈ MODEL_PIPELINE, m ∈ (gauntletCall attempt bans).trace) := by
  have hexcl : ∀ (attempt : String → Outcome) (bans : List String) (m : String),
      m ∈ bans → getAvailableModels bans ≠ [] →
      m ∉ (gauntletCall attempt bans).trace := by
    intro attempt bans m hm hne
    simp only [gauntletCall]
    rw [if_neg hne]
    exact gauntletRun_trace_avoids attempt bans m hm
  have hban : ∀ (attempt : String → Outcome) (bans : List String) (m : String)
      (s : ℕ) (msg : String),
      m ∈ (gauntletCall attempt bans).trace → attempt m = .failure s msg →
      shouldBan s msg = true → m ∈ (gauntletCall attempt bans).bans := by
    intro attempt bans m s msg hm hfail hb
    simp only [gauntletCall] at hm ⊢
    split_ifs at hm ⊢ with h
    · exact gauntletRun_ban_on_failure attempt [] m s msg hm hfail hb
    · exact gauntletRun_ban_on_failure attempt bans m s msg hm hfail hb
  have hheal : ∀ (attempt : String → Outcome) (bans : List String),
      getAvailableModels bans = [] → gauntletCall attempt bans = gauntletCall attempt [] := by
    intro attempt bans h
    simp only [gauntletCall]
    rw [if_pos h, if_neg (by decide)]
  refine ⟨hexcl, hban, ?_, hheal, ?_⟩
  · intro attempt1 attempt2 bans m s msg hm hfail hb hne
    exact hexcl attempt2 _ m (hban attempt1 bans m s msg hm hfail hb) hne
  · intro attempt bans e h hres m hm
    rw [hheal attempt bans h] at hres ⊢
    simp only [gauntletCall] at hres ⊢
    rw [if_neg (by decide)] at hres ⊢
    exact gauntletRun_error_trace attempt e hres m hm

/-- Witness for C1: with the first two pipeline models failing 404 and the
rest succeeding — (a) a pre-banned model is not attempted, (b) the 404-failing
first model lands in the session ban set, (c) the call still succeeds with the
third model's text, and (d) a second call no longer attempts the banned
models. -/
theorem c1_cascade_session_exclusion_witness :
    "gemini-1.5-pro" ∉ (gauntletCall attemptW ["gemini-1.5-pro"]).trace ∧
    "gemini-1.5-flash" ∈ (gauntletCall attemptW []).bans ∧
    (gauntletCall attemptW []).result = .ok "model three answers" ∧
    "gemini-1.5-flash" ∉ (gauntletCall attemptW (gauntletCall attemptW []).bans).trace :=
  ⟨c1_cascade_session_exclusion.1 attemptW ["gemini-1.5-pro"] "gemini-1.5-pro"
      (by decide) (by decide),
   c1_cascade_session_exclusion.2.1 attemptW [] "gemini-1.5-flash" 404 "model not found"
      (by decide) (by decide) (by decide),
   by decide,
   c1_cascade_session_exclusion.2.2.1 attemptW attemptW [] "gemini-1.5-flash" 404
      "model not found" (by decide) (by decide) (by decide) (by decide)⟩

end Retriva
